import Mathlib

/-!
Shallow embedding of the NRSH Frame Alignment and Change Detection Engine
(`src/ai_models/change_detection/change_detector.py` and
`src/data_processing/alignment.py`).

Modelling conventions:
* Python floats are modelled as rationals (`ℚ`); the float literals `0.3`,
  `0.6`, `0.4`, `1e-6` of the source are modelled as the exact rationals
  they denote in the source text.
* Python dict-shaped detections are modelled by the structure `Det` whose
  fields are `Option`-valued (a `Option.none` field models a missing key).
  A field value that may be non-numeric is modelled by `Val`:
  `Val.num q` is a numeric value, `Val.str s` a value on which Python
  `float(...)` raises, `Val.null` is Python `None`.
* Code that can raise (`det["bbox"]` on a missing key, arithmetic on a
  non-numeric value) is modelled in the `Except Unit` monad; `.error ()`
  models an uncaught Python exception propagating out.
* Python object identity (`id(det)`) is modelled by tagging each detection
  with a natural number: `IdDet := ℕ × Det`.  Distinct live objects have
  distinct tags, which theorems assume through `Nodup` hypotheses.
-/

namespace NRSH

/-! ### Data model -/

inductive Val where
  | num (q : ℚ)
  | str (s : String)
  | null
deriving DecidableEq, Repr

structure Bbox where
  x1 : ℚ
  y1 : ℚ
  x2 : ℚ
  y2 : ℚ
deriving DecidableEq, Repr

structure Det where
  element_type : Option String
  bbox : Option Bbox
  confidence : Option Val
  area : Option Val
deriving DecidableEq, Repr

abbrev IdDet := ℕ × Det

/-- `ChangeRecord` as built by `ChangeDetector.detect_changes`. -/
structure Change where
  element_type : String
  bbox : Bbox
  confidence : Val
  change_type : String
  severity : String
  base_detection : Option IdDet
  present_detection : Option IdDet
  deterioration_score : Option ℚ
deriving DecidableEq, Repr

/-- Python `dict[key]` access: raises `KeyError` when the key is missing. -/
def ofOption {α : Type} : Option α → Except Unit α
  | some a => .ok a
  | Option.none => .error ()

/-! ### `ChangeDetector._safe_float`, `_is_deteriorated`, `_calculate_deterioration` -/

/-- The inner `_safe_float`: `None` and non-numeric values coerce to `0.0`. -/
def safeFloat : Val → ℚ
  | .num q => q
  | .str _ => 0
  | .null => 0

/-- `ChangeDetector._is_deteriorated` (change_detector.py lines 194-215). -/
def isDeteriorated (change_threshold : ℚ) (base_det present_det : Det) : Bool :=
  let base_conf := safeFloat (base_det.confidence.getD (Val.num 0))
  let present_conf := safeFloat (present_det.confidence.getD (Val.num 0))
  let base_area := max 0 (safeFloat (base_det.area.getD (Val.num 0)))
  let present_area := max 0 (safeFloat (present_det.area.getD (Val.num 0)))
  let conf_increase := present_conf - base_conf
  let denom := if base_area > 1/1000000 then base_area else 1
  let area_increase := (present_area - base_area) / denom
  decide (conf_increase > change_threshold) || decide (area_increase > 3/10)

/-- `ChangeDetector._calculate_deterioration` (lines 217-240). -/
def calculateDeterioration (base_det present_det : Det) : ℚ :=
  let base_conf := safeFloat (base_det.confidence.getD (Val.num 0))
  let present_conf := safeFloat (present_det.confidence.getD (Val.num 0))
  let base_area := max 0 (safeFloat (base_det.area.getD (Val.num 0)))
  let present_area := max 0 (safeFloat (present_det.area.getD (Val.num 0)))
  let conf_score := max 0 (present_conf - base_conf)
  let denom := if base_area > 1/1000000 then base_area else 1
  let raw_area_score := max 0 ((present_area - base_area) / denom)
  let area_score := min raw_area_score 1
  conf_score * (6/10) + area_score * (4/10)

/-! ### `ChangeDetector._classify_severity` -/

/-- Python arithmetic on a possibly non-numeric value: `TypeError` unless
numeric. -/
def toNum : Val → Except Unit ℚ
  | .num q => .ok q
  | .str _ => .error ()
  | .null => .error ()

/-- `ChangeDetector._classify_severity` (lines 242-257).  Note the defaults
`det.get("confidence", 0.5)` and `det.get("area", 0)`, and that a non-numeric
value raises (`area / (1280*720)` is evaluated before `confidence * 0.6`). -/
def classifySeverity (detection : Det) : Except Unit String := do
  let confidence := detection.confidence.getD (Val.num (1/2))
  let area := detection.area.getD (Val.num 0)
  let a ← toNum area
  let c ← toNum confidence
  let normalized_area := min 1 (a / (1280 * 720))
  let severity_score := c * (6/10) + normalized_area * (4/10)
  if severity_score > 7/10 then pure "severe"
  else if severity_score > 4/10 then pure "moderate"
  else pure "minor"

/-! ### `ChangeDetector._calculate_iou` -/

/-- `ChangeDetector._calculate_iou` (lines 156-178). -/
def calculateIou (bbox1 bbox2 : Bbox) : ℚ :=
  let x1_i := max bbox1.x1 bbox2.x1
  let y1_i := max bbox1.y1 bbox2.y1
  let x2_i := min bbox1.x2 bbox2.x2
  let y2_i := min bbox1.y2 bbox2.y2
  if x2_i < x1_i ∨ y2_i < y1_i then 0
  else
    let intersection := (x2_i - x1_i) * (y2_i - y1_i)
    let area1 := (bbox1.x2 - bbox1.x1) * (bbox1.y2 - bbox1.y1)
    let area2 := (bbox2.x2 - bbox2.x1) * (bbox2.y2 - bbox2.y1)
    let union := area1 + area2 - intersection
    if union = 0 then 0 else intersection / union

/-! ### `ChangeDetector._match_detections` -/

/-- Inner loop of `_match_detections` (lines 139-147): scan the present
detections with running index `i`, skipping indices already in `used`,
tracking the best candidate (and its index) and the best IoU so far.
Accessing a missing `bbox` raises. -/
def bestCandidate (base_det : Det) (iou_threshold : ℚ) :
    List IdDet → ℕ → List ℕ → Option (IdDet × ℕ) → ℚ →
    Except Unit (Option (IdDet × ℕ) × ℚ)
  | [], _, _, best, best_iou => .ok (best, best_iou)
  | present_det :: rest, i, used, best, best_iou =>
    if i ∈ used then
      bestCandidate base_det iou_threshold rest (i+1) used best best_iou
    else
      match base_det.bbox, present_det.2.bbox with
      | some bb1, some bb2 =>
        let iou := calculateIou bb1 bb2
        if iou > best_iou ∧ iou ≥ iou_threshold then
          bestCandidate base_det iou_threshold rest (i+1) used (some (present_det, i)) iou
        else
          bestCandidate base_det iou_threshold rest (i+1) used best best_iou
      | _, _ => .error ()

/-- Outer loop of `_match_detections` (lines 135-153): one pass over the base
detections, accumulating matched pairs and the set of claimed present
indices. -/
def matchLoop (iou_threshold : ℚ) (present_dets : List IdDet) :
    List IdDet → List ℕ → Except Unit (List (IdDet × IdDet))
  | [], _ => .ok []
  | base_det :: rest, used => do
    let r ← bestCandidate base_det.2 iou_threshold present_dets 0 used Option.none 0
    match r.1 with
    | some (present_det, i) => do
      let tail ← matchLoop iou_threshold present_dets rest (i :: used)
      pure ((base_det, present_det) :: tail)
    | Option.none => matchLoop iou_threshold present_dets rest used

/-- `ChangeDetector._match_detections` (lines 125-153). -/
def matchDetections (base_dets present_dets : List IdDet) (iou_threshold : ℚ) :
    Except Unit (List (IdDet × IdDet)) :=
  matchLoop iou_threshold present_dets base_dets []

/-! ### `ChangeDetector._get_unmatched` and `_group_by_type` -/

inductive Side where
  | base
  | present
deriving DecidableEq

/-- `ChangeDetector._get_unmatched` (lines 181-191): filter by object
identity against the matched side. -/
def getUnmatched (detections : List IdDet) (matched_pairs : List (IdDet × IdDet))
    (side : Side) : List IdDet :=
  let matched_ids : List ℕ := match side with
    | Side.base => matched_pairs.map (fun pr : IdDet × IdDet => pr.1.1)
    | Side.present => matched_pairs.map (fun pr : IdDet × IdDet => pr.2.1)
  detections.filter (fun det => decide (det.1 ∉ matched_ids))

/-- `det.get("element_type", "unknown")`. -/
def detType (det : Det) : String := det.element_type.getD "unknown"

/-- Insert one detection into the (insertion-ordered) groups, as a Python
dict of lists does. -/
def insertGroup : List (String × List IdDet) → String → IdDet →
    List (String × List IdDet)
  | [], k, det => [(k, [det])]
  | (k', dets) :: rest, k, det =>
    if k' = k then (k', dets ++ [det]) :: rest
    else (k', dets) :: insertGroup rest k det

/-- `ChangeDetector._group_by_type` (lines 114-122); Python dicts iterate in
insertion order. -/
def groupByType (detections : List IdDet) : List (String × List IdDet) :=
  detections.foldl (fun g det => insertGroup g (detType det.2) det) []

/-- `base_by_type.get(element_type, [])`. -/
def lookupGroup (groups : List (String × List IdDet)) (t : String) : List IdDet :=
  (groups.lookup t).getD []

/-! ### `ChangeDetector.detect_changes` -/

/-- The `new_issue` loop (lines 66-76): one record per unmatched present
detection; `det["bbox"]` and `det["confidence"]` raise on a missing key. -/
def processNewIssues (t : String) : List IdDet → Except Unit (List Change)
  | [] => .ok []
  | det :: rest => do
    let bb ← ofOption det.2.bbox
    let conf ← ofOption det.2.confidence
    let sev ← classifySeverity det.2
    let tail ← processNewIssues t rest
    pure ({ element_type := t, bbox := bb, confidence := conf,
            change_type := "new_issue", severity := sev,
            base_detection := Option.none, present_detection := some det,
            deterioration_score := Option.none } :: tail)

/-- The `deteriorated` loop (lines 78-92): one record per matched pair that
satisfies the deterioration predicate. -/
def processDeteriorated (change_threshold : ℚ) (t : String) :
    List (IdDet × IdDet) → Except Unit (List Change)
  | [] => .ok []
  | (base_det, present_det) :: rest =>
    if isDeteriorated change_threshold base_det.2 present_det.2 then do
      let bb ← ofOption present_det.2.bbox
      let conf ← ofOption present_det.2.confidence
      let sev ← classifySeverity present_det.2
      let tail ← processDeteriorated change_threshold t rest
      pure ({ element_type := t, bbox := bb, confidence := conf,
              change_type := "deteriorated", severity := sev,
              base_detection := some base_det,
              present_detection := some present_det,
              deterioration_score :=
                some (calculateDeterioration base_det.2 present_det.2) } :: tail)
    else processDeteriorated change_threshold t rest

/-- The `fixed` loop (lines 99-109): one record per unmatched base detection,
with severity hard-coded to `"minor"`. -/
def processFixed (t : String) : List IdDet → Except Unit (List Change)
  | [] => .ok []
  | det :: rest => do
    let bb ← ofOption det.2.bbox
    let conf ← ofOption det.2.confidence
    let tail ← processFixed t rest
    pure ({ element_type := t, bbox := bb, confidence := conf,
            change_type := "fixed", severity := "minor",
            base_detection := some det, present_detection := Option.none,
            deterioration_score := Option.none } :: tail)

/-- Body of the first `for` of `detect_changes` (lines 58-92) for one
element type. -/
def processType1 (change_threshold : ℚ) (t : String)
    (base_dets present_dets : List IdDet) : Except Unit (List Change) := do
  let matched_pairs ← matchDetections base_dets present_dets (3/10)
  let unmatched_present := getUnmatched present_dets matched_pairs Side.present
  let news ← processNewIssues t unmatched_present
  let dets ← processDeteriorated change_threshold t matched_pairs
  pure (news ++ dets)

/-- Body of the second `for` of `detect_changes` (lines 94-109) for one
element type. -/
def processType2 (t : String) (base_dets present_dets : List IdDet) :
    Except Unit (List Change) := do
  let matched_pairs ← matchDetections base_dets present_dets (3/10)
  let unmatched_base := getUnmatched base_dets matched_pairs Side.base
  processFixed t unmatched_base

/-- First pass of `detect_changes`: iterate the present groups in insertion
order. -/
def pass1 (change_threshold : ℚ) (base_by_type : List (String × List IdDet)) :
    List (String × List IdDet) → Except Unit (List Change)
  | [] => .ok []
  | (t, present_dets) :: rest => do
    let cs ← processType1 change_threshold t (lookupGroup base_by_type t) present_dets
    let csr ← pass1 change_threshold base_by_type rest
    pure (cs ++ csr)

/-- Second pass of `detect_changes`: iterate the base groups in insertion
order. -/
def pass2 (present_by_type : List (String × List IdDet)) :
    List (String × List IdDet) → Except Unit (List Change)
  | [] => .ok []
  | (t, base_dets) :: rest => do
    let cs ← processType2 t base_dets (lookupGroup present_by_type t)
    let csr ← pass2 present_by_type rest
    pure (cs ++ csr)

/-- `ChangeDetector.detect_changes` (lines 40-111). -/
def detectChanges (change_threshold : ℚ)
    (base_detections present_detections : List IdDet) :
    Except Unit (List Change) := do
  let base_by_type := groupByType base_detections
  let present_by_type := groupByType present_detections
  let changes1 ← pass1 change_threshold base_by_type present_by_type
  let changes2 ← pass2 present_by_type base_by_type
  pure (changes1 ++ changes2)

/-! ### Frame alignment (`src/data_processing/alignment.py`)

Frames (`np.ndarray`) are opaque payloads, modelled by a natural-number
identifier.  The geodesic-distance capability (`geopy.distance.geodesic`)
is external; it is passed in as a function parameter `dist`.  A GPS hint
(`Optional[Dict]`, frame number to `[lat, lon]`) is modelled as an optional
association list whose values are raw lists (the source shape-checks them).
-/

structure FrameMetadata where
  frame_number : ℕ
  timestamp : ℚ
  gps_coords : Option (ℚ × ℚ)
deriving DecidableEq, Repr

abbrev Coord := ℚ × ℚ

abbrev FrameT := ℕ × FrameMetadata

abbrev GpsData := List (ℕ × List ℚ)

inductive AlignMeta where
  | gps (base_frame_number present_frame_number : ℕ) (gps_distance_m : ℚ)
  | temporal (base_frame_number present_frame_number : ℕ) (time_difference_s : ℚ)
deriving DecidableEq, Repr

/-- One step of `FrameAligner._extract_gps_coords` (lines 151-167): frame
metadata first, else (when the hint dict is truthy) look the frame number up
in the hint and accept a list of length at least 2. -/
def extractCoord (gps_data : Option GpsData) (metadata : FrameMetadata) :
    Option Coord :=
  match metadata.gps_coords with
  | some c => some c
  | Option.none =>
    match gps_data with
    | some data =>
      if data.isEmpty then Option.none
      else
        match data.lookup metadata.frame_number with
        | some coord_data =>
          match coord_data.get? 0, coord_data.get? 1 with
          | some lat, some lon => some (lat, lon)
          | _, _ => Option.none
        | Option.none => Option.none
    | Option.none => Option.none

/-- Inner loop of `FrameAligner._align_by_gps` (lines 89-100): scan the
present frames (zipped with their extracted coordinates) with running index
`j`, keeping the frame, index and distance of the best candidate; a
candidate must be strictly closer than the current minimum (ties keep the
first) and within tolerance. -/
def bestGpsGo (dist : Coord → Coord → ℚ) (gps_tolerance : ℚ) (base_coord : Coord) :
    List (FrameT × Option Coord) → ℕ → Option (FrameT × ℕ × ℚ) →
    Option (FrameT × ℕ × ℚ)
  | [], _, best => best
  | (pframe, oc) :: rest, j, best =>
    match oc with
    | Option.none => bestGpsGo dist gps_tolerance base_coord rest (j+1) best
    | some pc =>
      let d := dist base_coord pc
      let closer : Bool := match best with
        | Option.none => true
        | some (_, _, m) => decide (d < m)
      if closer && decide (d ≤ gps_tolerance) then
        bestGpsGo dist gps_tolerance base_coord rest (j+1) (some (pframe, j, d))
      else
        bestGpsGo dist gps_tolerance base_coord rest (j+1) best

/-- Outer loop of `FrameAligner._align_by_gps` (lines 79-110): base frames
without a resolvable coordinate are skipped; otherwise the best present
frame (if any) yields one aligned pair tagged with method `"gps"`. -/
def alignByGpsGo (dist : Coord → Coord → ℚ) (gps_tolerance : ℚ)
    (present_zipped : List (FrameT × Option Coord)) :
    List (FrameT × Option Coord) → List (ℕ × ℕ × AlignMeta)
  | [] => []
  | (bframe, oc) :: rest =>
    match oc with
    | Option.none => alignByGpsGo dist gps_tolerance present_zipped rest
    | some c =>
      match bestGpsGo dist gps_tolerance c present_zipped 0 Option.none with
      | some (pframe, _, d) =>
        (bframe.1, pframe.1,
          AlignMeta.gps bframe.2.frame_number pframe.2.frame_number d) ::
          alignByGpsGo dist gps_tolerance present_zipped rest
      | Option.none => alignByGpsGo dist gps_tolerance present_zipped rest

/-- `FrameAligner._align_by_gps` (lines 64-112). -/
def alignByGps (dist : Coord → Coord → ℚ) (gps_tolerance : ℚ)
    (base_frames present_frames : List FrameT)
    (base_gps_data present_gps_data : GpsData) : List (ℕ × ℕ × AlignMeta) :=
  let base_coords := base_frames.map (fun f => extractCoord (some base_gps_data) f.2)
  let present_coords := present_frames.map (fun f => extractCoord (some present_gps_data) f.2)
  alignByGpsGo dist gps_tolerance (present_frames.zip present_coords)
    (base_frames.zip base_coords)

/-- `FrameAligner._align_by_temporal` (lines 114-141): index-by-index up to
the shorter length, keeping pairs within the temporal tolerance. -/
def alignByTemporal (temporal_tolerance : ℚ)
    (base_frames present_frames : List FrameT) : List (ℕ × ℕ × AlignMeta) :=
  (base_frames.zip present_frames).filterMap fun bp =>
    let time_diff := |bp.1.2.timestamp - bp.2.2.timestamp|
    if time_diff ≤ temporal_tolerance then
      some (bp.1.1, bp.2.1,
        AlignMeta.temporal bp.1.2.frame_number bp.2.2.frame_number time_diff)
    else Option.none

/-- Python truthiness of an `Optional[Dict]` GPS hint: `None` and the empty
dict are falsy. -/
def truthyGps : Option GpsData → Bool
  | some d => !d.isEmpty
  | Option.none => false

/-- `FrameAligner.align_frames` (lines 29-62): the strategy choice is the
Python condition `if base_gps_data and present_gps_data`. -/
def alignFrames (dist : Coord → Coord → ℚ)
    (gps_tolerance temporal_tolerance : ℚ)
    (base_frames present_frames : List FrameT)
    (base_gps_data present_gps_data : Option GpsData) :
    List (ℕ × ℕ × AlignMeta) :=
  if truthyGps base_gps_data && truthyGps present_gps_data then
    alignByGps dist gps_tolerance base_frames present_frames
      (base_gps_data.getD []) (present_gps_data.getD [])
  else
    alignByTemporal temporal_tolerance base_frames present_frames

/-! ### Geometry: bounds of `_calculate_iou` (claim C8) -/

lemma calculateIou_empty (b1 b2 : Bbox)
    (h : min b1.x2 b2.x2 < max b1.x1 b2.x1 ∨ min b1.y2 b2.y2 < max b1.y1 b2.y1) :
    calculateIou b1 b2 = 0 := by
  simp only [calculateIou]
  rw [if_pos h]

lemma calculateIou_union_zero (b1 b2 : Bbox)
    (h : (b1.x2 - b1.x1) * (b1.y2 - b1.y1) + (b2.x2 - b2.x1) * (b2.y2 - b2.y1) -
      (min b1.x2 b2.x2 - max b1.x1 b2.x1) * (min b1.y2 b2.y2 - max b1.y1 b2.y1) = 0) :
    calculateIou b1 b2 = 0 := by
  simp only [calculateIou]
  split_ifs with h1
  · rfl
  · rfl

lemma calculateIou_mem_unit (b1 b2 : Bbox) :
    0 ≤ calculateIou b1 b2 ∧ calculateIou b1 b2 ≤ 1 := by
  simp only [calculateIou]
  split_ifs with h1 h2
  · exact ⟨le_refl 0, by norm_num⟩
  · exact ⟨le_refl 0, by norm_num⟩
  · push_neg at h1
    obtain ⟨hx, hy⟩ := h1
    set inter := (min b1.x2 b2.x2 - max b1.x1 b2.x1) * (min b1.y2 b2.y2 - max b1.y1 b2.y1) with hinter
    set a1 := (b1.x2 - b1.x1) * (b1.y2 - b1.y1) with ha1
    set a2 := (b2.x2 - b2.x1) * (b2.y2 - b2.y1) with ha2
    have hxnn : (0:ℚ) ≤ min b1.x2 b2.x2 - max b1.x1 b2.x1 := by linarith
    have hynn : (0:ℚ) ≤ min b1.y2 b2.y2 - max b1.y1 b2.y1 := by linarith
    have hinn : 0 ≤ inter := mul_nonneg hxnn hynn
    have hia1 : inter ≤ a1 := by
      apply mul_le_mul
      · have h1 := min_le_left b1.x2 b2.x2
        have h2 := le_max_left b1.x1 b2.x1
        linarith
      · have h1 := min_le_left b1.y2 b2.y2
        have h2 := le_max_left b1.y1 b2.y1
        linarith
      · exact hynn
      · have h1 := min_le_left b1.x2 b2.x2
        have h2 := le_max_left b1.x1 b2.x1
        linarith
    have hia2 : inter ≤ a2 := by
      apply mul_le_mul
      · have h1 := min_le_right b1.x2 b2.x2
        have h2 := le_max_right b1.x1 b2.x1
        linarith
      · have h1 := min_le_right b1.y2 b2.y2
        have h2 := le_max_right b1.y1 b2.y1
        linarith
      · exact hynn
      · have h1 := min_le_right b1.x2 b2.x2
        have h2 := le_max_right b1.x1 b2.x1
        linarith
    have hupos : 0 < a1 + a2 - inter := by
      rcases lt_or_eq_of_le (by linarith : (0:ℚ) ≤ a1 + a2 - inter) with h | h
      · exact h
      · exact absurd h.symm h2
    constructor
    · exact div_nonneg hinn (le_of_lt hupos)
    · rw [div_le_one hupos]
      linarith

/-- C8: for every pair of bounding boxes, `_calculate_iou` returns a value in
[0,1]; it returns exactly 0.0 when the intersection rectangle is empty (right
edge left of left edge, or bottom above top, after the per-axis max/min), and
returns 0.0 rather than dividing by zero when the union area is 0. -/
theorem C8_iou_range (b1 b2 : Bbox) :
    (0 ≤ calculateIou b1 b2 ∧ calculateIou b1 b2 ≤ 1) ∧
    (min b1.x2 b2.x2 < max b1.x1 b2.x1 ∨ min b1.y2 b2.y2 < max b1.y1 b2.y1 →
      calculateIou b1 b2 = 0) ∧
    ((b1.x2 - b1.x1) * (b1.y2 - b1.y1) + (b2.x2 - b2.x1) * (b2.y2 - b2.y1) -
        (min b1.x2 b2.x2 - max b1.x1 b2.x1) * (min b1.y2 b2.y2 - max b1.y1 b2.y1) = 0 →
      calculateIou b1 b2 = 0) :=
  ⟨calculateIou_mem_unit b1 b2, calculateIou_empty b1 b2, calculateIou_union_zero b1 b2⟩

/-- Witness for C8 at concrete boxes: two disjoint boxes give IoU 0, two
zero-area boxes give IoU 0, and the bounds hold. -/
theorem C8_iou_range_witness :
    (0 ≤ calculateIou ⟨0,0,1,1⟩ ⟨2,2,3,3⟩ ∧ calculateIou ⟨0,0,1,1⟩ ⟨2,2,3,3⟩ ≤ 1) ∧
    calculateIou ⟨0,0,1,1⟩ ⟨2,2,3,3⟩ = 0 ∧ calculateIou ⟨0,0,0,0⟩ ⟨0,0,0,0⟩ = 0 :=
  ⟨(C8_iou_range ⟨0,0,1,1⟩ ⟨2,2,3,3⟩).1,
   (C8_iou_range ⟨0,0,1,1⟩ ⟨2,2,3,3⟩).2.1 (by norm_num),
   (C8_iou_range ⟨0,0,0,0⟩ ⟨0,0,0,0⟩).2.2 (by norm_num)⟩

/-! ### Severity classification (claim C6) -/

/-- C6: for a detection with numeric confidence and area, `_classify_severity`
computes `severity_score = confidence*0.6 + min(1.0, area/(1280*720))*0.4` and
returns "severe" iff score > 0.7, "moderate" iff 0.4 < score <= 0.7 and
"minor" otherwise; the boundaries are strict. -/
theorem C6_classify_severity (d : Det) (c a : ℚ)
    (hc : d.confidence = some (Val.num c)) (ha : d.area = some (Val.num a)) :
    (classifySeverity d = .ok "severe" ↔
      7/10 < c * (6/10) + min 1 (a / (1280 * 720)) * (4/10)) ∧
    (classifySeverity d = .ok "moderate" ↔
      (4/10 < c * (6/10) + min 1 (a / (1280 * 720)) * (4/10) ∧
       c * (6/10) + min 1 (a / (1280 * 720)) * (4/10) ≤ 7/10)) ∧
    (classifySeverity d = .ok "minor" ↔
      c * (6/10) + min 1 (a / (1280 * 720)) * (4/10) ≤ 4/10) := by
  simp only [classifySeverity, hc, ha, Option.getD_some, toNum, bind, Except.bind]
  set s := c * (6/10) + min 1 (a / (1280 * 720)) * (4/10) with hs
  split_ifs with h1 h2
  · simp only [pure, Except.pure, Except.ok.injEq]
    refine ⟨⟨fun _ => h1, fun _ => trivial⟩,
      ⟨fun h => absurd h (by decide), fun hm => absurd h1 (not_lt.mpr hm.2)⟩,
      ⟨fun h => absurd h (by decide), fun hm => absurd h1 (not_lt.mpr (hm.trans (by norm_num)))⟩⟩
  · simp only [pure, Except.pure, Except.ok.injEq]
    refine ⟨⟨fun h => absurd h (by decide), fun h => absurd h h1⟩,
      ⟨fun _ => ⟨h2, not_lt.mp h1⟩, fun _ => trivial⟩,
      ⟨fun h => absurd h (by decide), fun hm => absurd h2 (not_lt.mpr hm)⟩⟩
  · simp only [pure, Except.pure, Except.ok.injEq]
    refine ⟨⟨fun h => absurd h (by decide), fun h => absurd h h1⟩,
      ⟨fun h => absurd h (by decide), fun hm => absurd hm.1 h2⟩,
      ⟨fun _ => not_lt.mp h2, fun _ => trivial⟩⟩

/-- Witness for C6: confidence 0.5 and area 921600 give a score of exactly
0.7, classified "moderate" (strict boundary). -/
theorem C6_classify_severity_witness :
    classifySeverity ⟨Option.none, Option.none, some (Val.num (1/2)), some (Val.num 921600)⟩ =
      .ok "moderate" :=
  (C6_classify_severity _ (1/2) 921600 rfl rfl).2.1.mpr (by norm_num)

/-! ### Deterioration predicate (claim C1) -/

/-- Coerced confidence, written from the claim's words: missing or
non-numeric coerces to 0.0. -/
def claimCoerceConf (d : Det) : ℚ :=
  match d.confidence with
  | some (Val.num q) => q
  | _ => 0

/-- Coerced area, written from the claim's words: missing or non-numeric
coerces to 0.0 and negative area is clamped to 0.0. -/
def claimCoerceArea (d : Det) : ℚ :=
  max 0 (match d.area with
  | some (Val.num q) => q
  | _ => 0)

/-- Spec-side deterioration predicate, written from the claim's words (NOT
from the source): `conf_increase > change_threshold` OR
`(present.area - base.area) / max(base.area, epsilon) > 0.3`. -/
def claimDeteriorated (eps change_threshold : ℚ) (base_det present_det : Det) : Bool :=
  decide (claimCoerceConf present_det - claimCoerceConf base_det > change_threshold) ||
  decide ((claimCoerceArea present_det - claimCoerceArea base_det) /
      max (claimCoerceArea base_det) eps > 3/10)

/-- A detection carrying only an area value. -/
def detWithArea (q : ℚ) : Det := ⟨Option.none, Option.none, Option.none, some (Val.num q)⟩

/-- Counterexample to C1: no positive `epsilon` makes the claim's
`max(base.area, epsilon)` denominator agree with the source, which divides by
`base.area` only when `base.area > 1e-6` and by `1.0` otherwise.  For
`eps < 2/3` the pair (area 0, area 0.2) separates them; for `eps ≥ 2/3` the
pair (area 0.5, area 0.7) does. -/
theorem C1_counterexample :
    ¬ ∃ eps : ℚ, 0 < eps ∧ ∀ (b p : Det),
        isDeteriorated (3/10) b p = claimDeteriorated eps (3/10) b p := by
  rintro ⟨eps, heps, hall⟩
  by_cases hcase : eps < 2/3
  · have h := hall (detWithArea 0) (detWithArea (1/5))
    have hL : isDeteriorated (3/10) (detWithArea 0) (detWithArea (1/5)) = false := by
      simp only [isDeteriorated, detWithArea, Option.getD_some, safeFloat,
        Bool.or_eq_false_iff, decide_eq_false_iff_not, max_self]
      have hm : max (0:ℚ) (1/5) = 1/5 := max_eq_right (by norm_num)
      rw [hm, if_neg (by norm_num)]
      norm_num
    have harea : (claimCoerceArea (detWithArea (1/5)) - claimCoerceArea (detWithArea 0)) /
        max (claimCoerceArea (detWithArea 0)) eps > 3/10 := by
      have h1 : claimCoerceArea (detWithArea (1/5)) = 1/5 := by norm_num [claimCoerceArea, detWithArea]
      have h2 : claimCoerceArea (detWithArea 0) = 0 := by norm_num [claimCoerceArea, detWithArea]
      rw [h1, h2, sub_zero, max_eq_right heps.le, gt_iff_lt, lt_div_iff₀ heps]
      linarith
    have hR : claimDeteriorated eps (3/10) (detWithArea 0) (detWithArea (1/5)) = true := by
      unfold claimDeteriorated
      rw [Bool.or_eq_true]
      exact Or.inr (decide_eq_true harea)
    rw [hL, hR] at h
    exact Bool.noConfusion h
  · have h := hall (detWithArea (1/2)) (detWithArea (7/10))
    push_neg at hcase
    have hL : isDeteriorated (3/10) (detWithArea (1/2)) (detWithArea (7/10)) = true := by
      simp only [isDeteriorated, detWithArea, Option.getD_some, safeFloat,
        Bool.or_eq_true, decide_eq_true_eq]
      have hm1 : max (0:ℚ) (7/10) = 7/10 := max_eq_right (by norm_num)
      have hm2 : max (0:ℚ) (1/2) = 1/2 := max_eq_right (by norm_num)
      rw [hm1, hm2, if_pos (by norm_num)]
      right
      norm_num
    have hconf : ¬ (claimCoerceConf (detWithArea (7/10)) - claimCoerceConf (detWithArea (1/2)) > 3/10) := by
      norm_num [claimCoerceConf, detWithArea]
    have harea : ¬ ((claimCoerceArea (detWithArea (7/10)) - claimCoerceArea (detWithArea (1/2))) /
        max (claimCoerceArea (detWithArea (1/2))) eps > 3/10) := by
      have h1 : claimCoerceArea (detWithArea (7/10)) = 7/10 := by norm_num [claimCoerceArea, detWithArea]
      have h2 : claimCoerceArea (detWithArea (1/2)) = 1/2 := by norm_num [claimCoerceArea, detWithArea]
      rw [h1, h2, max_eq_right (by linarith : (1:ℚ)/2 ≤ eps), gt_iff_lt, not_lt,
        div_le_iff₀ (by linarith : (0:ℚ) < eps)]
      linarith
    have hR : claimDeteriorated eps (3/10) (detWithArea (1/2)) (detWithArea (7/10)) = false := by
      unfold claimDeteriorated
      rw [Bool.or_eq_false_iff]
      exact ⟨decide_eq_false hconf, decide_eq_false harea⟩
    rw [hL, hR] at h
    exact Bool.noConfusion h

lemma claimCoerceConf_eq (d : Det) :
    safeFloat (d.confidence.getD (Val.num 0)) = claimCoerceConf d := by
  cases h : d.confidence with
  | none => simp [claimCoerceConf, h, safeFloat]
  | some v => cases v <;> simp [claimCoerceConf, h, safeFloat]

lemma claimCoerceArea_eq (d : Det) :
    max 0 (safeFloat (d.area.getD (Val.num 0))) = claimCoerceArea d := by
  cases h : d.area with
  | none => simp [claimCoerceArea, h, safeFloat]
  | some v => cases v <;> simp [claimCoerceArea, h, safeFloat]

/-- C1 amended: for every matched (base, present) pair, the deterioration
predicate holds iff `conf_increase > change_threshold` OR
`area_increase > 0.3`, where `area_increase = (present.area - base.area) /
denom` and `denom` is `base.area` when `base.area > 1e-6` and `1.0`
otherwise (this avoids the division by zero; it is not `max(base.area,
epsilon)`); confidence and area are coerced defensively (missing/non-numeric
to 0.0, negative area clamped to 0.0). -/
theorem C1_amended (change_threshold : ℚ) (b p : Det) :
    isDeteriorated change_threshold b p = true ↔
      (claimCoerceConf p - claimCoerceConf b > change_threshold ∨
        (claimCoerceArea p - claimCoerceArea b) /
          (if claimCoerceArea b > 1/1000000 then claimCoerceArea b else 1) > 3/10) := by
  simp only [isDeteriorated, claimCoerceConf_eq, claimCoerceArea_eq,
    Bool.or_eq_true, decide_eq_true_eq]

/-- Witness for C1 amended at a concrete pair: confidence rise 0.5 → 0.9
with equal areas is deteriorated. -/
theorem C1_amended_witness :
    isDeteriorated (3/10)
      ⟨Option.none, Option.none, some (Val.num (1/2)), some (Val.num 100)⟩
      ⟨Option.none, Option.none, some (Val.num (9/10)), some (Val.num 100)⟩ = true :=
  (C1_amended (3/10) _ _).mpr (Or.inl (by norm_num [claimCoerceConf]))

/-! ### Strategy choice of `align_frames` (claim C2) -/

lemma alignByGpsGo_method (dist : Coord → Coord → ℚ) (tol : ℚ)
    (pz : List (FrameT × Option Coord)) :
    ∀ (l : List (FrameT × Option Coord)) (pr : ℕ × ℕ × AlignMeta),
      pr ∈ alignByGpsGo dist tol pz l → ∃ i j d, pr.2.2 = AlignMeta.gps i j d := by
  intro l
  induction l with
  | nil => intro pr h; simp [alignByGpsGo] at h
  | cons hd tl ih =>
    intro pr h
    obtain ⟨bframe, oc⟩ := hd
    cases oc with
    | none => exact ih pr (by simpa [alignByGpsGo] using h)
    | some c =>
      simp only [alignByGpsGo] at h
      cases hb : bestGpsGo dist tol c pz 0 Option.none with
      | none => rw [hb] at h; exact ih pr h
      | some b =>
        rw [hb] at h
        obtain ⟨pf, j, d⟩ := b
        rcases List.mem_cons.mp h with h1 | h2
        · subst h1; exact ⟨_, _, _, rfl⟩
        · exact ih pr h2

lemma alignByTemporal_method (tol : ℚ) (bf pf : List FrameT) (pr : ℕ × ℕ × AlignMeta)
    (h : pr ∈ alignByTemporal tol bf pf) :
    ∃ i j d, pr.2.2 = AlignMeta.temporal i j d := by
  simp only [alignByTemporal, List.mem_filterMap] at h
  obtain ⟨bp, _, heq⟩ := h
  split_ifs at heq with hc
  cases heq
  exact ⟨_, _, _, rfl⟩

def cexBaseFrames : List FrameT := [(0, ⟨0, 0, Option.none⟩)]

def cexPresentFrames : List FrameT := [(1, ⟨0, 0, Option.none⟩)]

def zeroDist : Coord → Coord → ℚ := fun _ _ => 0

/-- Counterexample to C2: both GPS hints are supplied (non-null) but the base
hint is an empty dict, which is falsy in Python, so temporal alignment is
used (and its output differs from GPS alignment's, which emits nothing
here). -/
theorem C2_counterexample :
    (some ([] : GpsData)) ≠ Option.none ∧
    (some [((0:ℕ), [(0:ℚ), 0])] : Option GpsData) ≠ Option.none ∧
    alignFrames zeroDist 50 5 cexBaseFrames cexPresentFrames
        (some []) (some [(0, [0, 0])]) =
      alignByTemporal 5 cexBaseFrames cexPresentFrames ∧
    alignByTemporal 5 cexBaseFrames cexPresentFrames ≠
      alignByGps zeroDist 50 cexBaseFrames cexPresentFrames [] [(0, [0, 0])] := by
  refine ⟨by simp, by simp, ?_, ?_⟩
  · simp only [alignFrames]
    rw [if_neg]
    intro h
    exact Bool.noConfusion ((by rfl : truthyGps (some []) = false) ▸ h)
  · have ht : alignByTemporal 5 cexBaseFrames cexPresentFrames =
        [(0, 1, AlignMeta.temporal 0 0 0)] := by
      norm_num [alignByTemporal, cexBaseFrames, cexPresentFrames, List.filterMap_cons]
    have hg : alignByGps zeroDist 50 cexBaseFrames cexPresentFrames [] [(0, [0, 0])] =
        [] := rfl
    rw [ht, hg]
    exact fun h => List.noConfusion h

/-- C2 amended: the GPS strategy is chosen iff both GPS hints are truthy
(non-null AND non-empty); otherwise temporal alignment is used.  The choice
is made exactly once per call: every emitted pair of one call carries the
same alignment method. -/
theorem C2_amended (dist : Coord → Coord → ℚ) (gt tt : ℚ)
    (bf pf : List FrameT) (bg pg : Option GpsData) :
    ((truthyGps bg && truthyGps pg) = true →
      alignFrames dist gt tt bf pf bg pg =
        alignByGps dist gt bf pf (bg.getD []) (pg.getD []) ∧
      ∀ pr ∈ alignFrames dist gt tt bf pf bg pg,
        ∃ i j d, pr.2.2 = AlignMeta.gps i j d) ∧
    ((truthyGps bg && truthyGps pg) = false →
      alignFrames dist gt tt bf pf bg pg = alignByTemporal tt bf pf ∧
      ∀ pr ∈ alignFrames dist gt tt bf pf bg pg,
        ∃ i j d, pr.2.2 = AlignMeta.temporal i j d) := by
  constructor
  · intro h
    have heq : alignFrames dist gt tt bf pf bg pg =
        alignByGps dist gt bf pf (bg.getD []) (pg.getD []) := by
      simp only [alignFrames]
      rw [if_pos h]
    refine ⟨heq, ?_⟩
    rw [heq]
    intro pr hpr
    exact alignByGpsGo_method dist gt _ _ pr hpr
  · intro h
    have heq : alignFrames dist gt tt bf pf bg pg = alignByTemporal tt bf pf := by
      simp only [alignFrames]
      rw [if_neg]
      intro hc
      rw [h] at hc
      exact Bool.noConfusion hc
    refine ⟨heq, ?_⟩
    rw [heq]
    intro pr hpr
    exact alignByTemporal_method tt bf pf pr hpr

/-- Witness for C2 amended: with a non-empty falsy-free hint on one side only,
the temporal branch applies at the concrete counterexample input. -/
theorem C2_amended_witness :
    alignFrames zeroDist 50 5 cexBaseFrames cexPresentFrames
        (some []) (some [(0, [0, 0])]) =
      alignByTemporal 5 cexBaseFrames cexPresentFrames :=
  ((C2_amended zeroDist 50 5 cexBaseFrames cexPresentFrames
      (some []) (some [(0, [0, 0])])).2 (by rfl)).1

/-! ### Defensive coercion and failure propagation (claim C3) -/

/-- Spec-side coercion of a possibly-malformed field value, written from the
claim's words: anything that is not numeric becomes `0.0`. -/
def coerceVal : Option Val → Option Val
  | some (Val.num q) => some (Val.num q)
  | _ => some (Val.num 0)

def coerceDet (d : Det) : Det :=
  { d with confidence := coerceVal d.confidence, area := coerceVal d.area }

/-- A present detection with a non-numeric confidence value. -/
def badPresentDet : Det :=
  ⟨some "pavement_crack", some ⟨0, 0, 1, 1⟩, some (Val.str "high"), some (Val.num 0)⟩

/-- Counterexample to C3: a detection list containing a non-numeric
confidence makes `detect_changes` raise (a `TypeError` inside
`_classify_severity` while emitting the new-issue record), contradicting
"never propagates a failure". -/
theorem C3_counterexample :
    detectChanges (3/10) [] [(0, badPresentDet)] = .error () := rfl

lemma safeFloat_coerceVal (ov : Option Val) :
    safeFloat ((coerceVal ov).getD (Val.num 0)) = safeFloat (ov.getD (Val.num 0)) := by
  cases ov with
  | none => rfl
  | some v => cases v <;> rfl

/-- C3 amended: non-numeric confidence/area values are coerced to 0.0 only
inside the deterioration predicate and the deterioration score (which never
fail); severity classification instead fails exactly when the (defaulted)
area or confidence value is non-numeric, and such a failure propagates out of
`detect_changes` (concretely: a new-issue present detection with non-numeric
confidence makes `detect_changes` raise). -/
theorem C3_amended :
    (∀ (thr : ℚ) (b p : Det),
        isDeteriorated thr b p = isDeteriorated thr (coerceDet b) (coerceDet p) ∧
        calculateDeterioration b p =
          calculateDeterioration (coerceDet b) (coerceDet p)) ∧
    (∀ d : Det, classifySeverity d = .error () ↔
        (toNum (d.area.getD (Val.num 0)) = .error () ∨
         toNum (d.confidence.getD (Val.num (1/2))) = .error ())) ∧
    detectChanges (3/10) [] [(0, badPresentDet)] = .error () := by
  refine ⟨?_, ?_, rfl⟩
  · intro thr b p
    constructor
    · simp only [isDeteriorated, coerceDet, safeFloat_coerceVal]
    · simp only [calculateDeterioration, coerceDet, safeFloat_coerceVal]
  · intro d
    simp only [classifySeverity]
    cases ha : toNum (d.area.getD (Val.num 0)) with
    | error e => cases e; simp [ha, bind, Except.bind]
    | ok a =>
      cases hc : toNum (d.confidence.getD (Val.num (1/2))) with
      | error e => cases e; simp [ha, hc, bind, Except.bind]
      | ok c =>
        simp only [ha, hc, bind, Except.bind]
        split_ifs <;> simp [pure, Except.pure, ha, hc]

/-- Witness for C3 amended: severity classification fails on the concrete
detection whose confidence is the non-numeric value "high". -/
theorem C3_amended_witness :
    classifySeverity badPresentDet = .error () :=
  (C3_amended.2.1 badPresentDet).mpr (Or.inr rfl)

/-! ### Invariants of the greedy matching (claims C4, C5) -/

lemma forall₂_mem_right {α β : Type} {R : α → β → Prop} :
    ∀ {l1 : List α} {l2 : List β}, List.Forall₂ R l1 l2 →
      ∀ b ∈ l2, ∃ a ∈ l1, R a b := by
  intro l1 l2 h
  induction h with
  | nil => intro b hb; cases hb
  | cons hR hrest ih =>
    intro b hb
    rcases List.mem_cons.mp hb with h1 | h2
    · subst h1; exact ⟨_, List.mem_cons_self _ _, hR⟩
    · obtain ⟨a, ha, hab⟩ := ih b h2
      exact ⟨a, List.mem_cons_of_mem _ ha, hab⟩

lemma forall₂_mem_left {α β : Type} {R : α → β → Prop} :
    ∀ {l1 : List α} {l2 : List β}, List.Forall₂ R l1 l2 →
      ∀ a ∈ l1, ∃ b ∈ l2, R a b := by
  intro l1 l2 h
  induction h with
  | nil => intro a ha; cases ha
  | cons hR hrest ih =>
    intro a ha
    rcases List.mem_cons.mp ha with h1 | h2
    · subst h1; exact ⟨_, List.mem_cons_self _ _, hR⟩
    · obtain ⟨b, hb, hab⟩ := ih a h2
      exact ⟨b, List.mem_cons_of_mem _ hb, hab⟩

/-- Invariant of the inner scan of `_match_detections`: any property `P`
that holds of the incoming best candidate and of every acceptable unclaimed
candidate holds of the final best candidate. -/
lemma bestCandidate_spec (P : (IdDet × ℕ) → ℚ → Prop) (base_det : Det) (thr : ℚ) :
    ∀ (pres : List IdDet) (i : ℕ) (used : List ℕ) (best : Option (IdDet × ℕ))
      (best_iou : ℚ) (res : Option (IdDet × ℕ) × ℚ),
      bestCandidate base_det thr pres i used best best_iou = .ok res →
      (∀ pr, best = some pr → P pr best_iou) →
      (∀ (k : ℕ) (p : IdDet), pres.get? k = some p → (i + k) ∉ used →
        ∀ bb pb, base_det.bbox = some bb → p.2.bbox = some pb →
        thr ≤ calculateIou bb pb → P (p, i + k) (calculateIou bb pb)) →
      ∀ pr, res.1 = some pr → P pr res.2 := by
  intro pres
  induction pres with
  | nil =>
    intro i used best best_iou res hok hbest hstep pr hpr
    simp only [bestCandidate] at hok
    cases hok
    exact hbest pr hpr
  | cons p rest ih =>
    intro i used best best_iou res hok hbest hstep pr hpr
    simp only [bestCandidate] at hok
    split_ifs at hok with hmem
    · refine ih (i+1) used best best_iou res hok hbest ?_ pr hpr
      intro k p' hget hused bb pb hbb hpb hiou
      have heq : i + 1 + k = i + (k + 1) := by omega
      rw [heq] at hused ⊢
      exact hstep (k+1) p' (by simpa using hget) hused bb pb hbb hpb hiou
    · cases hbb1 : base_det.bbox with
      | none => rw [hbb1] at hok; cases hok
      | some bb1 =>
        cases hbb2 : p.2.bbox with
        | none => rw [hbb1, hbb2] at hok; cases hok
        | some bb2 =>
          rw [hbb1, hbb2] at hok
          dsimp only at hok
          split_ifs at hok with hcond
          · refine ih (i+1) used (some (p, i)) (calculateIou bb1 bb2) res hok ?_ ?_ pr hpr
            · intro pr' hpr'
              cases hpr'
              have h0 := hstep 0 p (by simp) (by simpa using hmem) bb1 bb2 hbb1 hbb2 hcond.2
              simpa using h0
            · intro k p' hget hused bb pb hbb hpb hiou
              have heq : i + 1 + k = i + (k + 1) := by omega
              rw [heq] at hused ⊢
              exact hstep (k+1) p' (by simpa using hget) hused bb pb hbb hpb hiou
          · refine ih (i+1) used best best_iou res hok hbest ?_ pr hpr
            intro k p' hget hused bb pb hbb hpb hiou
            have heq : i + 1 + k = i + (k + 1) := by omega
            rw [heq] at hused ⊢
            exact hstep (k+1) p' (by simpa using hget) hused bb pb hbb hpb hiou

/-- Invariant of the outer loop of `_match_detections`: the pairs correspond
(in order) to distinct unclaimed present indices, every accepted pair meets
the IoU threshold, and the base sides form a sublist of the base input. -/
lemma matchLoop_spec (thr : ℚ) (pres : List IdDet) :
    ∀ (base : List IdDet) (used : List ℕ) (pairs : List (IdDet × IdDet)),
      matchLoop thr pres base used = .ok pairs →
      ∃ idxs : List ℕ,
        List.Forall₂ (fun (pr : IdDet × IdDet) (j : ℕ) =>
          pres.get? j = some pr.2 ∧ j ∉ used ∧
          ∃ bb pb, pr.1.2.bbox = some bb ∧ pr.2.2.bbox = some pb ∧
            thr ≤ calculateIou bb pb) pairs idxs ∧
        idxs.Nodup ∧ List.Sublist (pairs.map Prod.fst) base := by
  intro base
  induction base with
  | nil =>
    intro used pairs hok
    simp only [matchLoop] at hok
    cases hok
    exact ⟨[], List.Forall₂.nil, List.nodup_nil, by simp⟩
  | cons b rest ih =>
    intro used pairs hok
    cases hbc : bestCandidate b.2 thr pres 0 used Option.none 0 with
    | error e =>
      simp only [matchLoop, bind, Except.bind, hbc] at hok
      exact Except.noConfusion hok
    | ok r =>
      obtain ⟨obest, riou⟩ := r
      cases obest with
      | none =>
        simp only [matchLoop, bind, Except.bind, hbc] at hok
        obtain ⟨idxs, hf, hn, hs⟩ := ih used pairs hok
        exact ⟨idxs, hf, hn, hs.trans (List.sublist_cons_self b rest)⟩
      | some pi =>
        obtain ⟨p, i⟩ := pi
        cases hml : matchLoop thr pres rest (i :: used) with
        | error e =>
          simp only [matchLoop, bind, Except.bind, hbc, hml] at hok
          exact Except.noConfusion hok
        | ok tail =>
          simp only [matchLoop, bind, Except.bind, hbc, hml, pure, Except.pure,
            Except.ok.injEq] at hok
          subst hok
          obtain ⟨idxs, hf, hn, hs⟩ := ih (i :: used) tail hml
          have hP := bestCandidate_spec
            (fun pr q => pres.get? pr.2 = some pr.1 ∧ pr.2 ∉ used ∧
              ∃ bb pb, b.2.bbox = some bb ∧ pr.1.2.bbox = some pb ∧
                thr ≤ calculateIou bb pb)
            b.2 thr pres 0 used Option.none 0 (some (p, i), riou) hbc
            (fun pr h => Option.noConfusion h)
            (fun k p' hget hused bb pb hbb hpb hiou => by
              simp only [Nat.zero_add] at hused ⊢
              exact ⟨hget, hused, bb, pb, hbb, hpb, hiou⟩)
            (p, i) rfl
          obtain ⟨hget, husedi, bb, pb, hbb, hpb, hiou⟩ := hP
          refine ⟨i :: idxs, ?_, ?_, ?_⟩
          · refine List.Forall₂.cons ⟨hget, husedi, bb, pb, hbb, hpb, hiou⟩ ?_
            refine hf.imp ?_
            intro a j hj
            exact ⟨hj.1, fun hm => hj.2.1 (List.mem_cons_of_mem _ hm), hj.2.2⟩
          · rw [List.nodup_cons]
            refine ⟨?_, hn⟩
            intro hmem
            obtain ⟨a, _, hR⟩ := forall₂_mem_right hf i hmem
            exact hR.2.1 (List.mem_cons_self i used)
          · simpa using List.Sublist.cons₂ b hs

/-- The present-side identities of a matched-pairs list. -/
def presentIdsOf (pairs : List (IdDet × IdDet)) : List ℕ :=
  pairs.map (fun pr => pr.2.1)

lemma nodup_snd_ids (pres : List IdDet) (hnd : (pres.map Prod.fst).Nodup) :
    ∀ (pairs : List (IdDet × IdDet)) (idxs : List ℕ),
      List.Forall₂ (fun (pr : IdDet × IdDet) (j : ℕ) => pres.get? j = some pr.2)
        pairs idxs →
      idxs.Nodup → (presentIdsOf pairs).Nodup := by
  intro pairs idxs hf
  induction hf with
  | nil => intro _; simp [presentIdsOf]
  | @cons a j l1 l2 hR hrest ih =>
    intro hnodup
    rw [List.nodup_cons] at hnodup
    simp only [presentIdsOf, List.map_cons, List.nodup_cons]
    refine ⟨?_, ih hnodup.2⟩
    intro hmem
    obtain ⟨pr', hpr', hid⟩ := List.mem_map.mp hmem
    obtain ⟨j', hj', hR'⟩ := forall₂_mem_left hrest pr' hpr'
    have hjj : j ≠ j' := fun h => hnodup.1 (h ▸ hj')
    have hg1 : (pres.map Prod.fst).get? j = some a.2.1 := by
      rw [List.get?_map, hR]; rfl
    have hg2 : (pres.map Prod.fst).get? j' = some pr'.2.1 := by
      rw [List.get?_map, hR']; rfl
    have hlt : j < (pres.map Prod.fst).length := by
      by_contra hge
      rw [List.get?_eq_none.mpr (by omega)] at hg1
      cases hg1
    exact hjj (List.get?_inj hlt hnd (by rw [hg1, hg2, hid]))

/-- C4: the greedy matching is injective on the present side: no present
detection (by identity) appears in more than one matched pair within one
element-type bucket and frame pair. -/
theorem C4_matching_injective_present (base_dets present_dets : List IdDet)
    (thr : ℚ) (pairs : List (IdDet × IdDet))
    (hok : matchDetections base_dets present_dets thr = .ok pairs)
    (hnd : (present_dets.map Prod.fst).Nodup) :
    (presentIdsOf pairs).Nodup := by
  obtain ⟨idxs, hf, hn, _⟩ := matchLoop_spec thr present_dets base_dets [] pairs hok
  exact nodup_snd_ids present_dets hnd pairs idxs (hf.imp fun a j h => h.1) hn

/-- C5: every pair emitted by `_match_detections` has IoU at least the
threshold, and a base detection whose IoU with every present detection is
below the threshold remains unmatched. -/
theorem C5_matched_pairs_meet_threshold (base_dets present_dets : List IdDet)
    (thr : ℚ) (pairs : List (IdDet × IdDet))
    (hok : matchDetections base_dets present_dets thr = .ok pairs) :
    (∀ pr ∈ pairs, ∃ bb pb, pr.1.2.bbox = some bb ∧ pr.2.2.bbox = some pb ∧
        thr ≤ calculateIou bb pb) ∧
    (∀ b ∈ base_dets,
      (∀ p ∈ present_dets, ∀ bb pb, b.2.bbox = some bb → p.2.bbox = some pb →
        calculateIou bb pb < thr) →
      ∀ p, (b, p) ∉ pairs) := by
  obtain ⟨idxs, hf, hn, hs⟩ := matchLoop_spec thr present_dets base_dets [] pairs hok
  constructor
  · intro pr hpr
    obtain ⟨j, hj, hR⟩ := forall₂_mem_left hf pr hpr
    exact hR.2.2
  · intro b hb hlow p hmem
    obtain ⟨j, hj, hR⟩ := forall₂_mem_left hf (b, p) hmem
    obtain ⟨hget, _, bb, pb, hbb, hpb, hiou⟩ := hR
    have hp : p ∈ present_dets := List.get?_mem hget
    exact absurd hiou (not_le.mpr (hlow p hp bb pb hbb hpb))

/-! Concrete inputs for the matching witnesses. -/

def dtA : Det := ⟨some "pavement_crack", some ⟨0, 0, 1, 1⟩, Option.none, Option.none⟩

def dtFar : Det := ⟨some "pavement_crack", some ⟨10, 10, 11, 11⟩, Option.none, Option.none⟩

lemma iou_unit_box : calculateIou ⟨0, 0, 1, 1⟩ ⟨0, 0, 1, 1⟩ = 1 := by
  simp [calculateIou]

lemma iou_far_box : calculateIou ⟨10, 10, 11, 11⟩ ⟨0, 0, 1, 1⟩ = 0 := by
  norm_num [calculateIou, min_def, max_def]

lemma matchDetections_one_pair :
    matchDetections [(0, dtA)] [(1, dtA)] (3/10) = .ok [((0, dtA), (1, dtA))] := by
  norm_num [matchDetections, matchLoop, bestCandidate, dtA, iou_unit_box,
    bind, Except.bind, pure, Except.pure]

lemma matchDetections_no_pair :
    matchDetections [(2, dtFar)] [(1, dtA)] (3/10) = .ok [] := by
  norm_num [matchDetections, matchLoop, bestCandidate, dtFar, dtA, iou_far_box,
    bind, Except.bind, pure, Except.pure]

/-- Witness for C4 at a concrete matched pair. -/
theorem C4_matching_injective_present_witness :
    (presentIdsOf [((0, dtA), (1, dtA))]).Nodup :=
  C4_matching_injective_present [(0, dtA)] [(1, dtA)] (3/10) _
    matchDetections_one_pair (by simp)

/-- Witness for C5: the concrete matched pair meets the threshold, and a far
base box stays unmatched. -/
theorem C5_matched_pairs_meet_threshold_witness :
    (3:ℚ)/10 ≤ calculateIou ⟨0, 0, 1, 1⟩ ⟨0, 0, 1, 1⟩ ∧
    ((2, dtFar), (1, dtA)) ∉ ([] : List (IdDet × IdDet)) := by
  constructor
  · obtain ⟨bb, pb, hbb, hpb, hle⟩ :=
      (C5_matched_pairs_meet_threshold [(0, dtA)] [(1, dtA)] (3/10) _
        matchDetections_one_pair).1 ((0, dtA), (1, dtA)) (by simp)
    rw [show ((0, dtA) : IdDet).2.bbox = some ⟨0, 0, 1, 1⟩ from rfl] at hbb
    rw [show ((1, dtA) : IdDet).2.bbox = some ⟨0, 0, 1, 1⟩ from rfl] at hpb
    cases hbb
    cases hpb
    exact hle
  · refine (C5_matched_pairs_meet_threshold [(2, dtFar)] [(1, dtA)] (3/10) []
      matchDetections_no_pair).2 (2, dtFar) (by simp) ?_ (1, dtA)
    intro p hp bb pb hbb hpb
    rw [List.mem_singleton] at hp
    subst hp
    rw [show ((2, dtFar) : IdDet).2.bbox = some ⟨10, 10, 11, 11⟩ from rfl] at hbb
    rw [show ((1, dtA) : IdDet).2.bbox = some ⟨0, 0, 1, 1⟩ from rfl] at hpb
    cases hbb
    cases hpb
    rw [iou_far_box]
    norm_num

/-! ### Shapes of the emitted change records (claims C9, C10) -/

lemma exceptBind_ok {α β : Type} {x : Except Unit α} {f : α → Except Unit β} {b : β}
    (h : (x >>= f) = .ok b) : ∃ a, x = .ok a ∧ f a = .ok b := by
  cases x with
  | error e => simp [bind, Except.bind] at h
  | ok a => exact ⟨a, rfl, by simpa [bind, Except.bind] using h⟩

lemma processNewIssues_spec (t : String) :
    ∀ (dets : List IdDet) (cs : List Change),
      processNewIssues t dets = .ok cs →
      ∀ ch ∈ cs, ch.change_type = "new_issue" ∧ ch.base_detection = Option.none ∧
        ∃ d ∈ dets, ch.present_detection = some d := by
  intro dets
  induction dets with
  | nil =>
    intro cs hok ch hch
    simp only [processNewIssues] at hok
    cases hok
    cases hch
  | cons d rest ih =>
    intro cs hok ch hch
    simp only [processNewIssues] at hok
    obtain ⟨bb, hbb, hok⟩ := exceptBind_ok hok
    obtain ⟨conf, hcf, hok⟩ := exceptBind_ok hok
    obtain ⟨sev, hsev, hok⟩ := exceptBind_ok hok
    obtain ⟨tail, htl, hok⟩ := exceptBind_ok hok
    simp only [pure, Except.pure, Except.ok.injEq] at hok
    subst hok
    rcases List.mem_cons.mp hch with h1 | h2
    · subst h1
      exact ⟨rfl, rfl, d, List.mem_cons_self _ _, rfl⟩
    · obtain ⟨hct, hbd, d', hd', hpd⟩ := ih tail htl ch h2
      exact ⟨hct, hbd, d', List.mem_cons_of_mem _ hd', hpd⟩

lemma processDeteriorated_spec (thr : ℚ) (t : String) :
    ∀ (pairs : List (IdDet × IdDet)) (cs : List Change),
      processDeteriorated thr t pairs = .ok cs →
      ∀ ch ∈ cs, ch.change_type = "deteriorated" ∧
        ∃ pr ∈ pairs, ch.base_detection = some pr.1 ∧
          ch.present_detection = some pr.2 := by
  intro pairs
  induction pairs with
  | nil =>
    intro cs hok ch hch
    simp only [processDeteriorated] at hok
    cases hok
    cases hch
  | cons pr rest ih =>
    intro cs hok ch hch
    obtain ⟨b, p⟩ := pr
    simp only [processDeteriorated] at hok
    split_ifs at hok with hdet
    · obtain ⟨bb, hbb, hok⟩ := exceptBind_ok hok
      obtain ⟨conf, hcf, hok⟩ := exceptBind_ok hok
      obtain ⟨sev, hsev, hok⟩ := exceptBind_ok hok
      obtain ⟨tail, htl, hok⟩ := exceptBind_ok hok
      simp only [pure, Except.pure, Except.ok.injEq] at hok
      subst hok
      rcases List.mem_cons.mp hch with h1 | h2
      · subst h1
        exact ⟨rfl, (b, p), List.mem_cons_self _ _, rfl, rfl⟩
      · obtain ⟨hct, pr', hpr', hbd, hpd⟩ := ih tail htl ch h2
        exact ⟨hct, pr', List.mem_cons_of_mem _ hpr', hbd, hpd⟩
    · obtain ⟨hct, pr', hpr', hbd, hpd⟩ := ih cs hok ch hch
      exact ⟨hct, pr', List.mem_cons_of_mem _ hpr', hbd, hpd⟩

lemma processFixed_spec (t : String) :
    ∀ (dets : List IdDet) (cs : List Change),
      processFixed t dets = .ok cs →
      ∀ ch ∈ cs, ch.change_type = "fixed" ∧ ch.severity = "minor" ∧
        ch.present_detection = Option.none ∧
        ∃ d ∈ dets, ch.base_detection = some d := by
  intro dets
  induction dets with
  | nil =>
    intro cs hok ch hch
    simp only [processFixed] at hok
    cases hok
    cases hch
  | cons d rest ih =>
    intro cs hok ch hch
    simp only [processFixed] at hok
    obtain ⟨bb, hbb, hok⟩ := exceptBind_ok hok
    obtain ⟨conf, hcf, hok⟩ := exceptBind_ok hok
    obtain ⟨tail, htl, hok⟩ := exceptBind_ok hok
    simp only [pure, Except.pure, Except.ok.injEq] at hok
    subst hok
    rcases List.mem_cons.mp hch with h1 | h2
    · subst h1
      exact ⟨rfl, rfl, rfl, d, List.mem_cons_self _ _, rfl⟩
    · obtain ⟨hct, hsev, hpd, d', hd', hbd⟩ := ih tail htl ch h2
      exact ⟨hct, hsev, hpd, d', List.mem_cons_of_mem _ hd', hbd⟩

lemma processType1_mem (thr : ℚ) (t : String) (base_dets present_dets : List IdDet)
    (cs : List Change) (hok : processType1 thr t base_dets present_dets = .ok cs) :
    ∃ pairs news dets,
      matchDetections base_dets present_dets (3/10) = .ok pairs ∧
      processNewIssues t (getUnmatched present_dets pairs Side.present) = .ok news ∧
      processDeteriorated thr t pairs = .ok dets ∧ cs = news ++ dets := by
  simp only [processType1] at hok
  obtain ⟨pairs, hp, hok⟩ := exceptBind_ok hok
  obtain ⟨news, hn, hok⟩ := exceptBind_ok hok
  obtain ⟨dets, hd, hok⟩ := exceptBind_ok hok
  simp only [pure, Except.pure, Except.ok.injEq] at hok
  exact ⟨pairs, news, dets, hp, hn, hd, hok.symm⟩

lemma processType2_mem (t : String) (base_dets present_dets : List IdDet)
    (cs : List Change) (hok : processType2 t base_dets present_dets = .ok cs) :
    ∃ pairs,
      matchDetections base_dets present_dets (3/10) = .ok pairs ∧
      processFixed t (getUnmatched base_dets pairs Side.base) = .ok cs := by
  simp only [processType2] at hok
  obtain ⟨pairs, hp, hok⟩ := exceptBind_ok hok
  exact ⟨pairs, hp, hok⟩

lemma pass1_mem (thr : ℚ) (baseG : List (String × List IdDet)) :
    ∀ (entries : List (String × List IdDet)) (cs : List Change),
      pass1 thr baseG entries = .ok cs →
      ∀ ch ∈ cs, ∃ e ∈ entries, ∃ cs',
        processType1 thr e.1 (lookupGroup baseG e.1) e.2 = .ok cs' ∧ ch ∈ cs' := by
  intro entries
  induction entries with
  | nil =>
    intro cs hok ch hch
    simp only [pass1] at hok
    cases hok
    cases hch
  | cons e rest ih =>
    intro cs hok ch hch
    obtain ⟨t, present_dets⟩ := e
    simp only [pass1] at hok
    obtain ⟨cs1, h1, hok⟩ := exceptBind_ok hok
    obtain ⟨cs2, h2, hok⟩ := exceptBind_ok hok
    simp only [pure, Except.pure, Except.ok.injEq] at hok
    subst hok
    rcases List.mem_append.mp hch with hm | hm
    · exact ⟨(t, present_dets), List.mem_cons_self _ _, cs1, h1, hm⟩
    · obtain ⟨e', he', cs', hcs', hch'⟩ := ih cs2 h2 ch hm
      exact ⟨e', List.mem_cons_of_mem _ he', cs', hcs', hch'⟩

lemma pass2_mem (presG : List (String × List IdDet)) :
    ∀ (entries : List (String × List IdDet)) (cs : List Change),
      pass2 presG entries = .ok cs →
      ∀ ch ∈ cs, ∃ e ∈ entries, ∃ cs',
        processType2 e.1 e.2 (lookupGroup presG e.1) = .ok cs' ∧ ch ∈ cs' := by
  intro entries
  induction entries with
  | nil =>
    intro cs hok ch hch
    simp only [pass2] at hok
    cases hok
    cases hch
  | cons e rest ih =>
    intro cs hok ch hch
    obtain ⟨t, base_dets⟩ := e
    simp only [pass2] at hok
    obtain ⟨cs1, h1, hok⟩ := exceptBind_ok hok
    obtain ⟨cs2, h2, hok⟩ := exceptBind_ok hok
    simp only [pure, Except.pure, Except.ok.injEq] at hok
    subst hok
    rcases List.mem_append.mp hch with hm | hm
    · exact ⟨(t, base_dets), List.mem_cons_self _ _, cs1, h1, hm⟩
    · obtain ⟨e', he', cs', hcs', hch'⟩ := ih cs2 h2 ch hm
      exact ⟨e', List.mem_cons_of_mem _ he', cs', hcs', hch'⟩

lemma detectChanges_mem (thr : ℚ) (base present : List IdDet) (cs : List Change)
    (hok : detectChanges thr base present = .ok cs) :
    ∃ cs1 cs2,
      pass1 thr (groupByType base) (groupByType present) = .ok cs1 ∧
      pass2 (groupByType present) (groupByType base) = .ok cs2 ∧
      cs = cs1 ++ cs2 := by
  simp only [detectChanges] at hok
  obtain ⟨cs1, h1, hok⟩ := exceptBind_ok hok
  obtain ⟨cs2, h2, hok⟩ := exceptBind_ok hok
  simp only [pure, Except.pure, Except.ok.injEq] at hok
  exact ⟨cs1, cs2, h1, h2, hok.symm⟩

/-- C9: every emitted ChangeRecord satisfies the field invariants: a "fixed"
record has no present detection and severity "minor"; a "new_issue" record
has no base detection; a "deteriorated" record has both populated. -/
theorem C9_change_record_invariants (thr : ℚ) (base present : List IdDet)
    (cs : List Change) (hok : detectChanges thr base present = .ok cs) :
    ∀ ch ∈ cs,
      (ch.change_type = "fixed" →
        ch.present_detection = Option.none ∧ ch.severity = "minor") ∧
      (ch.change_type = "new_issue" → ch.base_detection = Option.none) ∧
      (ch.change_type = "deteriorated" →
        ∃ b p, ch.base_detection = some b ∧ ch.present_detection = some p) := by
  intro ch hch
  obtain ⟨cs1, cs2, h1, h2, heq⟩ := detectChanges_mem thr base present cs hok
  subst heq
  rcases List.mem_append.mp hch with hm | hm
  · obtain ⟨e, he, cs', hcs', hch'⟩ :=
      pass1_mem thr (groupByType base) (groupByType present) cs1 h1 ch hm
    obtain ⟨pairs, news, dets, hp, hn, hd, hcseq⟩ := processType1_mem _ _ _ _ _ hcs'
    subst hcseq
    rcases List.mem_append.mp hch' with hm' | hm'
    · obtain ⟨hct, hbd, d, hd', hpd⟩ := processNewIssues_spec _ _ _ hn ch hm'
      refine ⟨fun h => absurd (hct ▸ h) (by decide), fun _ => hbd, fun h => ?_⟩
      rw [hct] at h
      exact absurd h (by decide)
    · obtain ⟨hct, pr, hpr, hbd, hpd⟩ := processDeteriorated_spec _ _ _ _ hd ch hm'
      refine ⟨fun h => absurd (hct ▸ h) (by decide), fun h => ?_, fun _ => ⟨pr.1, pr.2, hbd, hpd⟩⟩
      rw [hct] at h
      exact absurd h (by decide)
  · obtain ⟨e, he, cs', hcs', hch'⟩ :=
      pass2_mem (groupByType present) (groupByType base) cs2 h2 ch hm
    obtain ⟨pairs, hp, hf⟩ := processType2_mem _ _ _ _ hcs'
    obtain ⟨hct, hsev, hpd, d, hd', hbd⟩ := processFixed_spec _ _ _ hf ch hch'
    refine ⟨fun _ => ⟨hpd, hsev⟩, fun h => ?_, fun h => ?_⟩
    · rw [hct] at h
      exact absurd h (by decide)
    · rw [hct] at h
      exact absurd h (by decide)

/-- A fully-populated present detection used by concrete witnesses (score
exactly 0.7, classified "moderate"). -/
def dtP : Det :=
  ⟨some "pavement_crack", some ⟨0, 0, 1, 1⟩, some (Val.num (1/2)),
    some (Val.num 921600)⟩

def newIssueRecordP : Change :=
  { element_type := "pavement_crack", bbox := ⟨0, 0, 1, 1⟩,
    confidence := Val.num (1/2), change_type := "new_issue",
    severity := "moderate", base_detection := Option.none,
    present_detection := some (1, dtP), deterioration_score := Option.none }

lemma detectChanges_new_issue :
    detectChanges (3/10) [] [(1, dtP)] = .ok [newIssueRecordP] := by
  norm_num [detectChanges, groupByType, insertGroup, detType, pass1, pass2, lookupGroup,
    processType1, processType2, matchDetections, matchLoop, getUnmatched,
    processNewIssues, processDeteriorated, processFixed, classifySeverity, toNum, ofOption,
    dtP, newIssueRecordP, bind, Except.bind, pure, Except.pure]

/-- Witness for C9 at the concrete new-issue record. -/
theorem C9_change_record_invariants_witness :
    (newIssueRecordP.change_type = "fixed" →
      newIssueRecordP.present_detection = Option.none ∧
      newIssueRecordP.severity = "minor") ∧
    (newIssueRecordP.change_type = "new_issue" →
      newIssueRecordP.base_detection = Option.none) ∧
    (newIssueRecordP.change_type = "deteriorated" →
      ∃ b p, newIssueRecordP.base_detection = some b ∧
        newIssueRecordP.present_detection = some p) :=
  C9_change_record_invariants (3/10) [] [(1, dtP)] [newIssueRecordP]
    detectChanges_new_issue newIssueRecordP (List.mem_singleton.mpr rfl)

/-! ### GPS alignment selection (claim C7) -/

lemma bool_and_parts {a b : Bool} (h : (a && b) = true) : a = true ∧ b = true := by
  simpa using h

lemma bestGpsGo_some (dist : Coord → Coord → ℚ) (tol : ℚ) (c : Coord) :
    ∀ (l : List (FrameT × Option Coord)) (j : ℕ) (xf : FrameT) (xj : ℕ) (xm : ℚ),
      ∃ b, bestGpsGo dist tol c l j (some (xf, xj, xm)) = some b ∧
        (b = (xf, xj, xm) ∨ b.2.2 < xm) := by
  intro l
  induction l with
  | nil => intro j xf xj xm; exact ⟨(xf, xj, xm), rfl, Or.inl rfl⟩
  | cons hd tl ih =>
    intro j xf xj xm
    obtain ⟨pf, oc⟩ := hd
    cases oc with
    | none => simpa [bestGpsGo] using ih (j+1) xf xj xm
    | some pc =>
      simp only [bestGpsGo]
      by_cases hacc : (decide (dist c pc < xm) && decide (dist c pc ≤ tol)) = true
      · rw [if_pos hacc]
        obtain ⟨b, hb, hor⟩ := ih (j+1) pf j (dist c pc)
        have hlt : dist c pc < xm := of_decide_eq_true (bool_and_parts hacc).1
        refine ⟨b, hb, Or.inr ?_⟩
        rcases hor with h | h
        · rw [h]
          exact hlt
        · exact lt_trans h hlt
      · rw [if_neg hacc]
        exact ih (j+1) xf xj xm

lemma bestGpsGo_spec (dist : Coord → Coord → ℚ) (tol : ℚ) (c : Coord)
    (P : FrameT × ℕ × ℚ → Prop) :
    ∀ (l : List (FrameT × Option Coord)) (j : ℕ) (best : Option (FrameT × ℕ × ℚ)),
      (∀ x, best = some x → P x) →
      (∀ (k : ℕ) (pf : FrameT) (pc : Coord), l.get? k = some (pf, some pc) →
        dist c pc ≤ tol → P (pf, j + k, dist c pc)) →
      ∀ b, bestGpsGo dist tol c l j best = some b → P b := by
  intro l
  induction l with
  | nil =>
    intro j best hbest hstep b hb
    exact hbest b hb
  | cons hd tl ih =>
    intro j best hbest hstep b hb
    obtain ⟨pf, oc⟩ := hd
    cases oc with
    | none =>
      simp only [bestGpsGo] at hb
      refine ih (j+1) best hbest ?_ b hb
      intro k pf' pc' hget hd
      have heq : j + 1 + k = j + (k + 1) := by omega
      rw [heq]
      exact hstep (k+1) pf' pc' (by simpa using hget) hd
    | some pc =>
      simp only [bestGpsGo] at hb
      split_ifs at hb with hacc
      · refine ih (j+1) (some (pf, j, dist c pc)) ?_ ?_ b hb
        · intro x hx
          cases hx
          have hd : dist c pc ≤ tol := of_decide_eq_true (bool_and_parts hacc).2
          have h0 := hstep 0 pf pc (by simp) hd
          simpa using h0
        · intro k pf' pc' hget hd
          have heq : j + 1 + k = j + (k + 1) := by omega
          rw [heq]
          exact hstep (k+1) pf' pc' (by simpa using hget) hd
      · refine ih (j+1) best hbest ?_ b hb
        intro k pf' pc' hget hd
        have heq : j + 1 + k = j + (k + 1) := by omega
        rw [heq]
        exact hstep (k+1) pf' pc' (by simpa using hget) hd

lemma bestGpsGo_min (dist : Coord → Coord → ℚ) (tol : ℚ) (c : Coord) :
    ∀ (l : List (FrameT × Option Coord)) (j : ℕ) (best : Option (FrameT × ℕ × ℚ))
      (b : FrameT × ℕ × ℚ),
      bestGpsGo dist tol c l j best = some b →
      ∀ (k : ℕ) (pf : FrameT) (pc : Coord), l.get? k = some (pf, some pc) →
        dist c pc ≤ tol → b.2.2 ≤ dist c pc := by
  intro l
  induction l with
  | nil =>
    intro j best b hb k pf pc hget
    simp at hget
  | cons hd tl ih =>
    intro j best b hb k pf pc hget hdle
    obtain ⟨pf0, oc⟩ := hd
    cases oc with
    | none =>
      simp only [bestGpsGo] at hb
      cases k with
      | zero => simp at hget
      | succ n => exact ih (j+1) best b hb n pf pc (by simpa using hget) hdle
    | some pc0 =>
      simp only [bestGpsGo] at hb
      split_ifs at hb with hacc
      · cases k with
        | zero =>
          simp only [List.get?, Option.some.injEq, Prod.mk.injEq] at hget
          obtain ⟨hpf, hpc⟩ := hget
          subst hpf
          subst hpc
          obtain ⟨b', hb', hor⟩ := bestGpsGo_some dist tol c tl (j+1) pf0 j (dist c pc0)
          rw [hb'] at hb
          cases hb
          rcases hor with h | h
          · subst h
            exact le_refl _
          · exact le_of_lt h
        | succ n => exact ih (j+1) _ b hb n pf pc (by simpa using hget) hdle
      · cases k with
        | zero =>
          simp only [List.get?, Option.some.injEq, Prod.mk.injEq] at hget
          obtain ⟨hpf, hpc⟩ := hget
          subst hpf
          subst hpc
          cases best with
          | none =>
            exact absurd (by simp [decide_eq_true hdle]) hacc
          | some x =>
            obtain ⟨xf, xj, xm⟩ := x
            have hxm : xm ≤ dist c pc0 := by
              by_contra hlt
              push_neg at hlt
              exact hacc (by simp [decide_eq_true hlt, decide_eq_true hdle])
            obtain ⟨b', hb', hor⟩ := bestGpsGo_some dist tol c tl (j+1) xf xj xm
            rw [hb'] at hb
            cases hb
            rcases hor with h | h
            · rw [h]
              exact hxm
            · exact le_of_lt (lt_of_lt_of_le h hxm)
        | succ n => exact ih (j+1) best b hb n pf pc (by simpa using hget) hdle

lemma bestGpsGo_first (dist : Coord → Coord → ℚ) (tol : ℚ) (c : Coord) :
    ∀ (l : List (FrameT × Option Coord)) (j : ℕ) (best : Option (FrameT × ℕ × ℚ))
      (b : FrameT × ℕ × ℚ),
      bestGpsGo dist tol c l j best = some b → b.2.2 ≤ tol →
      (∀ x, best = some x → x.2.1 < j ∧ x.2.2 ≤ tol) →
      ∀ (k : ℕ) (pf : FrameT) (pc : Coord), l.get? k = some (pf, some pc) →
        dist c pc = b.2.2 → b.2.1 ≤ j + k := by
  intro l
  induction l with
  | nil =>
    intro j best b hb htolb hinv k pf pc hget
    simp at hget
  | cons hd tl ih =>
    intro j best b hb htolb hinv k pf pc hget hdeq
    obtain ⟨pf0, oc⟩ := hd
    cases oc with
    | none =>
      simp only [bestGpsGo] at hb
      cases k with
      | zero => simp at hget
      | succ n =>
        have h := ih (j+1) best b hb htolb
          (fun x hx => ⟨Nat.lt_succ_of_lt (hinv x hx).1, (hinv x hx).2⟩)
          n pf pc (by simpa using hget) hdeq
        omega
    | some pc0 =>
      simp only [bestGpsGo] at hb
      split_ifs at hb with hacc
      · have hd0 : dist c pc0 ≤ tol := of_decide_eq_true (bool_and_parts hacc).2
        cases k with
        | zero =>
          simp only [List.get?, Option.some.injEq, Prod.mk.injEq] at hget
          obtain ⟨hpf, hpc⟩ := hget
          subst hpf
          subst hpc
          obtain ⟨b', hb', hor⟩ := bestGpsGo_some dist tol c tl (j+1) pf0 j (dist c pc0)
          rw [hb'] at hb
          cases hb
          rcases hor with h | h
          · subst h
            simp
          · rw [hdeq] at h
            exact absurd h (lt_irrefl _)
        | succ n =>
          have h := ih (j+1) (some (pf0, j, dist c pc0)) b hb htolb
            (fun x hx => by cases hx; exact ⟨Nat.lt_succ_self j, hd0⟩)
            n pf pc (by simpa using hget) hdeq
          omega
      · cases k with
        | zero =>
          simp only [List.get?, Option.some.injEq, Prod.mk.injEq] at hget
          obtain ⟨hpf, hpc⟩ := hget
          subst hpf
          subst hpc
          by_cases hd0 : dist c pc0 ≤ tol
          · cases best with
            | none =>
              exact absurd (by simp [decide_eq_true hd0]) hacc
            | some x =>
              obtain ⟨xf, xj, xm⟩ := x
              have hxm : xm ≤ dist c pc0 := by
                by_contra hlt
                push_neg at hlt
                exact hacc (by simp [decide_eq_true hlt, decide_eq_true hd0])
              obtain ⟨b', hb', hor⟩ := bestGpsGo_some dist tol c tl (j+1) xf xj xm
              rw [hb'] at hb
              cases hb
              rcases hor with h | h
              · have hxlt : xj < j := (hinv (xf, xj, xm) rfl).1
                subst h
                show xj ≤ j + 0
                omega
              · rw [hdeq] at hxm
                exact absurd (lt_of_lt_of_le h hxm) (lt_irrefl _)
          · rw [hdeq] at hd0
            exact absurd htolb hd0
        | succ n =>
          have h := ih (j+1) best b hb htolb
            (fun x hx => ⟨Nat.lt_succ_of_lt (hinv x hx).1, (hinv x hx).2⟩)
            n pf pc (by simpa using hget) hdeq
          omega

lemma bestGpsGo_none (dist : Coord → Coord → ℚ) (tol : ℚ) (c : Coord) :
    ∀ (l : List (FrameT × Option Coord)) (j : ℕ),
      bestGpsGo dist tol c l j Option.none = Option.none ↔
      ∀ (k : ℕ) (pf : FrameT) (pc : Coord), l.get? k = some (pf, some pc) →
        tol < dist c pc := by
  intro l
  induction l with
  | nil =>
    intro j
    constructor
    · intro _ k pf pc hget
      simp at hget
    · intro _
      rfl
  | cons hd tl ih =>
    intro j
    obtain ⟨pf0, oc⟩ := hd
    cases oc with
    | none =>
      constructor
      · intro hb k pf pc hget
        simp only [bestGpsGo] at hb
        cases k with
        | zero => simp at hget
        | succ n => exact (ih (j+1)).mp hb n pf pc (by simpa using hget)
      · intro hall
        simp only [bestGpsGo]
        refine (ih (j+1)).mpr ?_
        intro k pf pc hget
        exact hall (k+1) pf pc (by simpa using hget)
    | some pc0 =>
      constructor
      · intro hb k pf pc hget
        simp only [bestGpsGo] at hb
        split_ifs at hb with hacc
        · obtain ⟨b', hb', _⟩ := bestGpsGo_some dist tol c tl (j+1) pf0 j (dist c pc0)
          rw [hb'] at hb
          cases hb
        · cases k with
          | zero =>
            simp only [List.get?, Option.some.injEq, Prod.mk.injEq] at hget
            obtain ⟨hpf, hpc⟩ := hget
            subst hpf
            subst hpc
            by_contra hle
            push_neg at hle
            exact hacc (by simp [decide_eq_true hle])
          | succ n => exact (ih (j+1)).mp hb n pf pc (by simpa using hget)
      · intro hall
        simp only [bestGpsGo]
        rw [if_neg]
        · refine (ih (j+1)).mpr ?_
          intro k pf pc hget
          exact hall (k+1) pf pc (by simpa using hget)
        · have h0 : tol < dist c pc0 := hall 0 pf0 pc0 (by simp)
          simp [decide_eq_false (not_le.mpr h0)]

lemma zip_map_get? {α β : Type} (f : α → β) :
    ∀ (l : List α) (k : ℕ),
      (l.zip (l.map f)).get? k = (l.get? k).map (fun x => (x, f x)) := by
  intro l
  induction l with
  | nil => intro k; simp
  | cons a tl ih =>
    intro k
    cases k with
    | zero => simp
    | succ n => simpa using ih n

lemma filterMap_zip_map {α β γ : Type} (f : α → β) (g : α × β → Option γ) :
    ∀ l : List α, (l.zip (l.map f)).filterMap g = l.filterMap (fun x => g (x, f x)) := by
  intro l
  induction l with
  | nil => rfl
  | cons a tl ih => simp only [List.map_cons, List.zip_cons_cons, List.filterMap_cons, ih]

lemma alignByGpsGo_eq (dist : Coord → Coord → ℚ) (tol : ℚ)
    (pz : List (FrameT × Option Coord)) :
    ∀ l, alignByGpsGo dist tol pz l = l.filterMap (fun bfoc =>
      match bfoc.2 with
      | Option.none => Option.none
      | some c =>
        match bestGpsGo dist tol c pz 0 Option.none with
        | some (pf2, _, d) =>
          some (bfoc.1.1, pf2.1, AlignMeta.gps bfoc.1.2.frame_number pf2.2.frame_number d)
        | Option.none => Option.none) := by
  intro l
  induction l with
  | nil => rfl
  | cons hd tl ih =>
    obtain ⟨bf, oc⟩ := hd
    cases oc with
    | none => simpa [alignByGpsGo, List.filterMap_cons] using ih
    | some c =>
      cases hb : bestGpsGo dist tol c pz 0 Option.none with
      | none => simp [alignByGpsGo, List.filterMap_cons, hb, ih]
      | some b =>
        obtain ⟨pf2, j2, d2⟩ := b
        simp [alignByGpsGo, List.filterMap_cons, hb, ih]

/-- The present frames zipped with their extracted GPS coordinates, exactly as
`_align_by_gps` scans them. -/
def presentZip (pg : GpsData) (present_frames : List FrameT) :
    List (FrameT × Option Coord) :=
  present_frames.zip (present_frames.map (fun f => extractCoord (some pg) f.2))

lemma presentZip_get? (pg : GpsData) (present_frames : List FrameT) (k : ℕ)
    (p : FrameT) (oc : Option Coord) :
    (presentZip pg present_frames).get? k = some (p, oc) ↔
      present_frames.get? k = some p ∧ oc = extractCoord (some pg) p.2 := by
  rw [presentZip, zip_map_get?]
  cases hg : present_frames.get? k with
  | none => simp
  | some p' =>
    simp only [Option.map_some', Option.some.injEq, Prod.mk.injEq]
    constructor
    · rintro ⟨h1, h2⟩
      subst h1
      exact ⟨rfl, h2.symm⟩
    · rintro ⟨h1, h2⟩
      subst h1
      exact ⟨rfl, h2.symm⟩

/-- C7: in GPS alignment, a base frame without a resolvable coordinate is
skipped; otherwise the emitted pair (if any) uses the present frame found by
the inner scan, and that scan returns a resolvable present frame of minimal
geodesic distance within tolerance, resolving ties to the first present frame
in iteration order; it returns nothing iff no resolvable present frame is
within tolerance. -/
theorem C7_gps_alignment (dist : Coord → Coord → ℚ) (tol : ℚ)
    (base_frames present_frames : List FrameT) (bg pg : GpsData) :
    (alignByGps dist tol base_frames present_frames bg pg =
      base_frames.filterMap (fun bf =>
        match extractCoord (some bg) bf.2 with
        | Option.none => Option.none
        | some c =>
          match bestGpsGo dist tol c (presentZip pg present_frames) 0 Option.none with
          | some (pf2, _, d) =>
            some (bf.1, pf2.1, AlignMeta.gps bf.2.frame_number pf2.2.frame_number d)
          | Option.none => Option.none)) ∧
    (∀ (c : Coord) (b : FrameT × ℕ × ℚ),
      bestGpsGo dist tol c (presentZip pg present_frames) 0 Option.none = some b →
      (∃ pc, present_frames.get? b.2.1 = some b.1 ∧
        extractCoord (some pg) b.1.2 = some pc ∧ b.2.2 = dist c pc ∧ b.2.2 ≤ tol) ∧
      (∀ (k : ℕ) (p : FrameT) (pc : Coord), present_frames.get? k = some p →
        extractCoord (some pg) p.2 = some pc → b.2.2 ≤ dist c pc) ∧
      (∀ (k : ℕ) (p : FrameT) (pc : Coord), present_frames.get? k = some p →
        extractCoord (some pg) p.2 = some pc → dist c pc = b.2.2 → b.2.1 ≤ k)) ∧
    (∀ c : Coord,
      bestGpsGo dist tol c (presentZip pg present_frames) 0 Option.none =
          Option.none ↔
      ∀ (k : ℕ) (p : FrameT) (pc : Coord), present_frames.get? k = some p →
        extractCoord (some pg) p.2 = some pc → tol < dist c pc) := by
  refine ⟨?_, ?_, ?_⟩
  · rw [show alignByGps dist tol base_frames present_frames bg pg =
      alignByGpsGo dist tol (presentZip pg present_frames)
        (base_frames.zip (base_frames.map
          (fun f => extractCoord (some bg) f.2))) from rfl]
    rw [alignByGpsGo_eq]
    exact filterMap_zip_map _ _ base_frames
  · intro c b hb
    have hsound := bestGpsGo_spec dist tol c
      (fun x => ∃ pc, (presentZip pg present_frames).get? x.2.1 = some (x.1, some pc) ∧
        x.2.2 = dist c pc ∧ x.2.2 ≤ tol)
      (presentZip pg present_frames) 0 Option.none
      (fun x hx => Option.noConfusion hx)
      (fun k pf pc hget hd => by
        refine ⟨pc, ?_, rfl, hd⟩
        simpa using hget)
      b hb
    obtain ⟨pc, hget, hdd, htolb⟩ := hsound
    rw [presentZip_get?] at hget
    refine ⟨⟨pc, hget.1, hget.2.symm, hdd, htolb⟩, ?_, ?_⟩
    · intro k p pc' hp hpc
      by_cases hd : dist c pc' ≤ tol
      · refine bestGpsGo_min dist tol c (presentZip pg present_frames) 0
          Option.none b hb k p pc' ?_ hd
        rw [presentZip_get?]
        exact ⟨hp, hpc.symm⟩
      · push_neg at hd
        exact le_of_lt (lt_of_le_of_lt htolb hd)
    · intro k p pc' hp hpc hdeq
      have h := bestGpsGo_first dist tol c (presentZip pg present_frames) 0
        Option.none b hb htolb (fun x hx => Option.noConfusion hx) k p pc'
        (by rw [presentZip_get?]; exact ⟨hp, hpc.symm⟩) hdeq
      simpa using h
  · intro c
    rw [bestGpsGo_none]
    constructor
    · intro hall k p pc hp hpc
      exact hall k p pc (by rw [presentZip_get?]; exact ⟨hp, hpc.symm⟩)
    · intro hall k p pc hget
      rw [presentZip_get?] at hget
      exact hall k p pc hget.1 hget.2.symm

def farDist : Coord → Coord → ℚ := fun _ _ => 100

def wMeta : FrameMetadata := ⟨1, 0, some (0, 0)⟩

/-- Witness for C7: with every candidate beyond tolerance, the scan yields
nothing and the base frame produces no pair. -/
theorem C7_gps_alignment_witness :
    bestGpsGo farDist 50 (0, 0) (presentZip [] [(5, wMeta)]) 0 Option.none =
      Option.none :=
  ((C7_gps_alignment farDist 50 [] [(5, wMeta)] [] []).2.2 (0, 0)).mpr
    (fun k p pc hk hpc => by norm_num [farDist])

/-! ### Grouping invariants (claim C10) -/

lemma insertGroup_flatten (k : String) (d : IdDet) :
    ∀ g : List (String × List IdDet),
      List.Perm (((insertGroup g k d).map Prod.snd).flatten)
        (((g.map Prod.snd).flatten) ++ [d]) := by
  intro g
  induction g with
  | nil => simp [insertGroup]
  | cons e rest ih =>
    obtain ⟨k', dets⟩ := e
    by_cases hk : k' = k
    · simp only [insertGroup, if_pos hk, List.map_cons, List.flatten_cons]
      have h1 : (dets ++ [d]) ++ ((rest.map Prod.snd).flatten) =
          dets ++ ([d] ++ (rest.map Prod.snd).flatten) := by
        rw [List.append_assoc]
      have h2 : (dets ++ (rest.map Prod.snd).flatten) ++ [d] =
          dets ++ ((rest.map Prod.snd).flatten ++ [d]) := by
        rw [List.append_assoc]
      rw [h1, h2]
      exact List.Perm.append_left dets List.perm_append_comm
    · simp only [insertGroup, if_neg hk, List.map_cons, List.flatten_cons]
      have h2 : (dets ++ (rest.map Prod.snd).flatten) ++ [d] =
          dets ++ ((rest.map Prod.snd).flatten ++ [d]) := by
        rw [List.append_assoc]
      rw [h2]
      exact List.Perm.append_left dets ih

lemma groupByType_flatten_aux :
    ∀ (l : List IdDet) (g : List (String × List IdDet)),
      List.Perm
        (((l.foldl (fun g det => insertGroup g (detType det.2) det) g).map
          Prod.snd).flatten)
        (((g.map Prod.snd).flatten) ++ l) := by
  intro l
  induction l with
  | nil => intro g; simp
  | cons d rest ih =>
    intro g
    have h1 := ih (insertGroup g (detType d.2) d)
    have h2 := insertGroup_flatten (detType d.2) d g
    have h3 : List.Perm
        ((((insertGroup g (detType d.2) d).map Prod.snd).flatten) ++ rest)
        (((g.map Prod.snd).flatten ++ [d]) ++ rest) :=
      List.Perm.append_right rest h2
    have h4 : ((g.map Prod.snd).flatten ++ [d]) ++ rest =
        (g.map Prod.snd).flatten ++ (d :: rest) := by
      rw [List.append_assoc]
      rfl
    rw [List.foldl_cons]
    exact (h1.trans h3).trans (h4 ▸ List.Perm.refl _)

lemma groupByType_flatten (l : List IdDet) :
    List.Perm (((groupByType l).map Prod.snd).flatten) l := by
  have h := groupByType_flatten_aux l []
  simpa [groupByType] using h

lemma insertGroup_keys_mem (k : String) (d : IdDet) :
    ∀ (g : List (String × List IdDet)) (t : String),
      t ∈ (insertGroup g k d).map Prod.fst → t ∈ g.map Prod.fst ∨ t = k := by
  intro g
  induction g with
  | nil =>
    intro t ht
    simp [insertGroup] at ht
    exact Or.inr ht
  | cons e rest ih =>
    obtain ⟨k', dets⟩ := e
    intro t ht
    by_cases hk : k' = k
    · simp only [insertGroup, if_pos hk, List.map_cons] at ht
      exact Or.inl ht
    · simp only [insertGroup, if_neg hk, List.map_cons] at ht
      rcases List.mem_cons.mp ht with h | h
      · exact Or.inl (by simp [h])
      · rcases ih t h with h' | h'
        · exact Or.inl (List.mem_cons_of_mem _ h')
        · exact Or.inr h'

lemma insertGroup_keys_nodup (k : String) (d : IdDet) :
    ∀ g : List (String × List IdDet),
      (g.map Prod.fst).Nodup → ((insertGroup g k d).map Prod.fst).Nodup := by
  intro g
  induction g with
  | nil => intro _; simp [insertGroup]
  | cons e rest ih =>
    obtain ⟨k', dets⟩ := e
    intro hnd
    rw [List.map_cons, List.nodup_cons] at hnd
    by_cases hk : k' = k
    · simp only [insertGroup, if_pos hk, List.map_cons, List.nodup_cons]
      exact hnd
    · simp only [insertGroup, if_neg hk, List.map_cons, List.nodup_cons]
      refine ⟨?_, ih hnd.2⟩
      intro hmem
      rcases insertGroup_keys_mem k d rest k' hmem with h | h
      · exact hnd.1 h
      · exact hk h

lemma groupByType_keys_nodup (l : List IdDet) :
    ((groupByType l).map Prod.fst).Nodup := by
  rw [groupByType]
  have haux : ∀ (l' : List IdDet) (g : List (String × List IdDet)),
      (g.map Prod.fst).Nodup →
      ((l'.foldl (fun g det => insertGroup g (detType det.2) det) g).map
        Prod.fst).Nodup := by
    intro l'
    induction l' with
    | nil => intro g h; exact h
    | cons d rest ih => intro g h; exact ih _ (insertGroup_keys_nodup _ _ g h)
  exact haux l [] (by simp)

lemma lookupGroup_eq_of_mem :
    ∀ (g : List (String × List IdDet)) (t : String) (ds : List IdDet),
      (g.map Prod.fst).Nodup → (t, ds) ∈ g → lookupGroup g t = ds := by
  intro g
  induction g with
  | nil =>
    intro t ds _ h
    cases h
  | cons e rest ih =>
    obtain ⟨k', ds'⟩ := e
    intro t ds hnd hmem
    rw [List.map_cons, List.nodup_cons] at hnd
    rcases List.mem_cons.mp hmem with h | h
    · rw [Prod.mk.injEq] at h
      obtain ⟨h1, h2⟩ := h
      subst h1
      subst h2
      simp [lookupGroup, List.lookup]
    · have hne : (t == k') = false := by
        rw [beq_eq_false_iff_ne]
        intro he
        subst he
        exact hnd.1 (List.mem_map.mpr ⟨(t, ds), h, rfl⟩)
      have hstep : lookupGroup ((k', ds') :: rest) t = lookupGroup rest t := by
        simp [lookupGroup, List.lookup, hne]
      rw [hstep]
      exact ih t ds hnd.2 h

lemma lookupGroup_mem :
    ∀ (g : List (String × List IdDet)) (t : String) (x : IdDet),
      x ∈ lookupGroup g t → ∃ ds, (t, ds) ∈ g ∧ x ∈ ds := by
  intro g
  induction g with
  | nil =>
    intro t x hx
    simp [lookupGroup, List.lookup] at hx
  | cons e rest ih =>
    obtain ⟨k', ds'⟩ := e
    intro t x hx
    by_cases ht : t = k'
    · subst ht
      have : lookupGroup ((t, ds') :: rest) t = ds' := by
        simp [lookupGroup, List.lookup]
      rw [this] at hx
      exact ⟨ds', List.mem_cons_self _ _, hx⟩
    · have hne : (t == k') = false := beq_eq_false_iff_ne.mpr ht
      have hstep : lookupGroup ((k', ds') :: rest) t = lookupGroup rest t := by
        simp [lookupGroup, List.lookup, hne]
      rw [hstep] at hx
      obtain ⟨ds, hmem, hx'⟩ := ih t x hx
      exact ⟨ds, List.mem_cons_of_mem _ hmem, hx'⟩

lemma groupByType_bucket_sub (l : List IdDet) :
    ∀ (e : String × List IdDet), e ∈ groupByType l → ∀ x ∈ e.2, x ∈ l := by
  intro e he x hx
  refine (groupByType_flatten l).mem_iff.mp ?_
  rw [List.mem_flatten]
  exact ⟨e.2, List.mem_map.mpr ⟨e, he, rfl⟩, hx⟩

lemma lookupGroup_sub (l : List IdDet) (t : String) :
    ∀ x ∈ lookupGroup (groupByType l) t, x ∈ l := by
  intro x hx
  obtain ⟨ds, hmem, hx'⟩ := lookupGroup_mem (groupByType l) t x hx
  exact groupByType_bucket_sub l (t, ds) hmem x hx'

lemma groupByType_ids_nodup (l : List IdDet) (hnd : (l.map Prod.fst).Nodup) :
    (∀ e ∈ groupByType l, (e.2.map Prod.fst).Nodup) ∧
    List.Pairwise (fun e1 e2 : String × List IdDet =>
      List.Disjoint (e1.2.map Prod.fst) (e2.2.map Prod.fst)) (groupByType l) := by
  have hperm : List.Perm (((groupByType l).map Prod.snd).flatten.map Prod.fst)
      (l.map Prod.fst) := (groupByType_flatten l).map Prod.fst
  have hnd2 : (((groupByType l).map Prod.snd).flatten.map Prod.fst).Nodup :=
    hperm.nodup_iff.mpr hnd
  rw [List.map_flatten, List.map_map, List.nodup_flatten] at hnd2
  obtain ⟨h1, h2⟩ := hnd2
  constructor
  · intro e he
    exact h1 _ (List.mem_map.mpr ⟨e, he, rfl⟩)
  · exact List.pairwise_map.mp h2

/-! ### Counting mentions of one detection identity (claim C10) -/

/-- A change record mentions detection identity `i` when its stored base or
present detection carries that identity. -/
def mentions (i : ℕ) (ch : Change) : Bool :=
  (match ch.base_detection with
   | some b => decide (b.1 = i)
   | Option.none => false) ||
  (match ch.present_detection with
   | some p => decide (p.1 = i)
   | Option.none => false)

lemma countP_id_le_one (i : ℕ) :
    ∀ l : List IdDet, (l.map Prod.fst).Nodup →
      l.countP (fun d => decide (d.1 = i)) ≤ 1 := by
  intro l
  induction l with
  | nil => intro _; simp
  | cons d rest ih =>
    intro hnd
    rw [List.map_cons, List.nodup_cons] at hnd
    rw [List.countP_cons]
    by_cases hd : d.1 = i
    · have h0 : rest.countP (fun d => decide (d.1 = i)) = 0 := by
        rw [List.countP_eq_zero]
        intro x hx
        simp only [decide_eq_true_eq]
        intro he
        exact hnd.1 (List.mem_map.mpr ⟨x, hx, by rw [he, hd]⟩)
      simp [h0, hd]
    · rw [if_neg (by simpa using hd), Nat.add_zero]
      exact ih hnd.2

lemma processNewIssues_count (t : String) (i : ℕ) :
    ∀ (dets : List IdDet) (cs : List Change),
      processNewIssues t dets = .ok cs →
      cs.countP (mentions i) = dets.countP (fun d => decide (d.1 = i)) := by
  intro dets
  induction dets with
  | nil =>
    intro cs hok
    simp only [processNewIssues] at hok
    cases hok
    simp
  | cons d rest ih =>
    intro cs hok
    simp only [processNewIssues] at hok
    obtain ⟨bb, hbb, hok⟩ := exceptBind_ok hok
    obtain ⟨conf, hcf, hok⟩ := exceptBind_ok hok
    obtain ⟨sev, hsev, hok⟩ := exceptBind_ok hok
    obtain ⟨tail, htl, hok⟩ := exceptBind_ok hok
    simp only [pure, Except.pure, Except.ok.injEq] at hok
    subst hok
    rw [List.countP_cons, List.countP_cons, ih tail htl]
    simp [mentions]

lemma processFixed_count (t : String) (i : ℕ) :
    ∀ (dets : List IdDet) (cs : List Change),
      processFixed t dets = .ok cs →
      cs.countP (mentions i) = dets.countP (fun d => decide (d.1 = i)) := by
  intro dets
  induction dets with
  | nil =>
    intro cs hok
    simp only [processFixed] at hok
    cases hok
    simp
  | cons d rest ih =>
    intro cs hok
    simp only [processFixed] at hok
    obtain ⟨bb, hbb, hok⟩ := exceptBind_ok hok
    obtain ⟨conf, hcf, hok⟩ := exceptBind_ok hok
    obtain ⟨tail, htl, hok⟩ := exceptBind_ok hok
    simp only [pure, Except.pure, Except.ok.injEq] at hok
    subst hok
    rw [List.countP_cons, List.countP_cons, ih tail htl]
    simp [mentions]

lemma processDeteriorated_count (thr : ℚ) (t : String) (i : ℕ) :
    ∀ (pairs : List (IdDet × IdDet)) (cs : List Change),
      processDeteriorated thr t pairs = .ok cs →
      cs.countP (mentions i) ≤
        pairs.countP (fun pr => decide (pr.1.1 = i) || decide (pr.2.1 = i)) := by
  intro pairs
  induction pairs with
  | nil =>
    intro cs hok
    simp only [processDeteriorated] at hok
    cases hok
    simp
  | cons pr rest ih =>
    intro cs hok
    obtain ⟨b, p⟩ := pr
    simp only [processDeteriorated] at hok
    split_ifs at hok with hdet
    · obtain ⟨bb, hbb, hok⟩ := exceptBind_ok hok
      obtain ⟨conf, hcf, hok⟩ := exceptBind_ok hok
      obtain ⟨sev, hsev, hok⟩ := exceptBind_ok hok
      obtain ⟨tail, htl, hok⟩ := exceptBind_ok hok
      simp only [pure, Except.pure, Except.ok.injEq] at hok
      subst hok
      rw [List.countP_cons, List.countP_cons]
      exact Nat.add_le_add (ih tail htl) (le_of_eq (by simp [mentions]))
    · rw [List.countP_cons]
      exact le_trans (ih cs hok) (Nat.le_add_right _ _)

lemma getUnmatched_countP_le (dets : List IdDet) (pairs : List (IdDet × IdDet))
    (side : Side) (p : IdDet → Bool) :
    (getUnmatched dets pairs side).countP p ≤ dets.countP p :=
  (List.filter_sublist dets).countP_le p

lemma getUnmatched_mem (dets : List IdDet) (pairs : List (IdDet × IdDet))
    (side : Side) (x : IdDet) :
    x ∈ getUnmatched dets pairs side ↔ x ∈ dets ∧
      x.1 ∉ (match side with
             | Side.base => pairs.map (fun pr : IdDet × IdDet => pr.1.1)
             | Side.present => pairs.map (fun pr : IdDet × IdDet => pr.2.1)) := by
  cases side <;> simp [getUnmatched, List.mem_filter]

lemma getUnmatched_matched_zero (dets : List IdDet) (pairs : List (IdDet × IdDet))
    (i : ℕ) (side : Side)
    (hi : i ∈ (match side with
               | Side.base => pairs.map (fun pr : IdDet × IdDet => pr.1.1)
               | Side.present => pairs.map (fun pr : IdDet × IdDet => pr.2.1))) :
    (getUnmatched dets pairs side).countP (fun d => decide (d.1 = i)) = 0 := by
  rw [List.countP_eq_zero]
  intro x hx
  rw [getUnmatched_mem] at hx
  simp only [decide_eq_true_eq]
  intro he
  exact hx.2 (he ▸ hi)

lemma matchDetections_pairs_mem (B P : List IdDet) (thr : ℚ)
    (pairs : List (IdDet × IdDet)) (hok : matchDetections B P thr = .ok pairs) :
    (∀ pr ∈ pairs, pr.1 ∈ B ∧ pr.2 ∈ P) ∧ (pairs.map Prod.fst).Sublist B := by
  obtain ⟨idxs, hf, hn, hs⟩ := matchLoop_spec thr P B [] pairs hok
  refine ⟨?_, hs⟩
  intro pr hpr
  constructor
  · exact hs.subset (List.mem_map.mpr ⟨pr, hpr, rfl⟩)
  · obtain ⟨j, hj, hR⟩ := forall₂_mem_left hf pr hpr
    exact List.get?_mem hR.1

lemma matchDetections_fst_ids_nodup (B P : List IdDet) (thr : ℚ)
    (pairs : List (IdDet × IdDet)) (hok : matchDetections B P thr = .ok pairs)
    (hBnd : (B.map Prod.fst).Nodup) :
    (pairs.map (fun pr => pr.1.1)).Nodup := by
  obtain ⟨-, hs⟩ := matchDetections_pairs_mem B P thr pairs hok
  have heq : (pairs.map (fun pr : IdDet × IdDet => pr.1.1)) =
      ((pairs.map Prod.fst).map Prod.fst) := by
    rw [List.map_map]
    rfl
  rw [heq]
  exact hBnd.sublist (hs.map Prod.fst)

lemma matchDetections_snd_ids_nodup (B P : List IdDet) (thr : ℚ)
    (pairs : List (IdDet × IdDet)) (hok : matchDetections B P thr = .ok pairs)
    (hPnd : (P.map Prod.fst).Nodup) :
    (pairs.map (fun pr => pr.2.1)).Nodup := by
  obtain ⟨idxs, hf, hn, -⟩ := matchLoop_spec thr P B [] pairs hok
  have h := nodup_snd_ids P hPnd pairs idxs (hf.imp fun a j hj => hj.1) hn
  simpa [presentIdsOf] using h

lemma countP_pairs_fst_le_one (pairs : List (IdDet × IdDet)) (i : ℕ)
    (h : (pairs.map (fun pr : IdDet × IdDet => pr.1.1)).Nodup) :
    pairs.countP (fun pr : IdDet × IdDet => decide (pr.1.1 = i)) ≤ 1 := by
  have heq : pairs.countP (fun pr : IdDet × IdDet => decide (pr.1.1 = i)) =
      (pairs.map Prod.fst).countP (fun d => decide (d.1 = i)) := by
    rw [List.countP_map]
    rfl
  rw [heq]
  apply countP_id_le_one
  rw [List.map_map]
  exact h

lemma countP_pairs_snd_le_one (pairs : List (IdDet × IdDet)) (i : ℕ)
    (h : (pairs.map (fun pr : IdDet × IdDet => pr.2.1)).Nodup) :
    pairs.countP (fun pr : IdDet × IdDet => decide (pr.2.1 = i)) ≤ 1 := by
  have heq : pairs.countP (fun pr : IdDet × IdDet => decide (pr.2.1 = i)) =
      (pairs.map Prod.snd).countP (fun d => decide (d.1 = i)) := by
    rw [List.countP_map]
    rfl
  rw [heq]
  apply countP_id_le_one
  rw [List.map_map]
  exact h

lemma processType1_count_zero (thr : ℚ) (t : String) (B P : List IdDet)
    (cs : List Change) (i : ℕ) (hok : processType1 thr t B P = .ok cs)
    (hB : ∀ x ∈ B, x.1 ≠ i) (hP : ∀ x ∈ P, x.1 ≠ i) :
    cs.countP (mentions i) = 0 := by
  obtain ⟨pairs, news, dets, hp, hn, hd, heq⟩ := processType1_mem thr t B P cs hok
  subst heq
  rw [List.countP_append]
  have h1 : news.countP (mentions i) = 0 := by
    rw [processNewIssues_count t i _ news hn, List.countP_eq_zero]
    intro x hx
    simp only [decide_eq_true_eq]
    exact hP x ((getUnmatched_mem P pairs Side.present x).mp hx).1
  have h2 : dets.countP (mentions i) = 0 := by
    have hle := processDeteriorated_count thr t i pairs dets hd
    have h0 : pairs.countP
        (fun pr : IdDet × IdDet => decide (pr.1.1 = i) || decide (pr.2.1 = i)) = 0 := by
      rw [List.countP_eq_zero]
      intro pr hpr
      obtain ⟨hbm, hpm⟩ := (matchDetections_pairs_mem B P (3/10) pairs hp).1 pr hpr
      simp only [Bool.or_eq_true, decide_eq_true_eq]
      rintro (h | h)
      · exact hB pr.1 hbm h
      · exact hP pr.2 hpm h
    omega
  omega

lemma processType1_count_one (thr : ℚ) (t : String) (B P : List IdDet)
    (cs : List Change) (i : ℕ) (hok : processType1 thr t B P = .ok cs)
    (hPnd : (P.map Prod.fst).Nodup) (hB : ∀ x ∈ B, x.1 ≠ i) :
    cs.countP (mentions i) ≤ 1 ∧
    (cs.countP (mentions i) ≠ 0 → i ∈ P.map Prod.fst) := by
  obtain ⟨pairs, news, dets, hp, hn, hd, heq⟩ := processType1_mem thr t B P cs hok
  subst heq
  rw [List.countP_append]
  have hdet_le : dets.countP (mentions i) ≤
      pairs.countP (fun pr : IdDet × IdDet => decide (pr.2.1 = i)) := by
    refine le_trans (processDeteriorated_count thr t i pairs dets hd) ?_
    refine List.countP_mono_left ?_
    intro pr hpr
    simp only [Bool.or_eq_true, decide_eq_true_eq]
    rintro (h | h)
    · exact absurd h (hB pr.1 ((matchDetections_pairs_mem B P (3/10) pairs hp).1 pr hpr).1)
    · exact h
  by_cases hi : i ∈ pairs.map (fun pr : IdDet × IdDet => pr.2.1)
  · have hnews0 : news.countP (mentions i) = 0 := by
      rw [processNewIssues_count t i _ news hn]
      exact getUnmatched_matched_zero P pairs i Side.present hi
    have hdet1 : pairs.countP (fun pr : IdDet × IdDet => decide (pr.2.1 = i)) ≤ 1 :=
      countP_pairs_snd_le_one pairs i
        (matchDetections_snd_ids_nodup B P (3/10) pairs hp hPnd)
    constructor
    · omega
    · intro _
      obtain ⟨pr, hpr, hid⟩ := List.mem_map.mp hi
      exact List.mem_map.mpr
        ⟨pr.2, ((matchDetections_pairs_mem B P (3/10) pairs hp).1 pr hpr).2, hid⟩
  · have hdet0 : pairs.countP (fun pr : IdDet × IdDet => decide (pr.2.1 = i)) = 0 := by
      rw [List.countP_eq_zero]
      intro pr hpr
      simp only [decide_eq_true_eq]
      intro he
      exact hi (List.mem_map.mpr ⟨pr, hpr, he⟩)
    have hnews_le : news.countP (mentions i) ≤ 1 := by
      rw [processNewIssues_count t i _ news hn]
      exact le_trans (getUnmatched_countP_le P pairs Side.present _)
        (countP_id_le_one i P hPnd)
    constructor
    · omega
    · intro hne
      have hnews_ne : news.countP (mentions i) ≠ 0 := by omega
      rw [processNewIssues_count t i _ news hn] at hnews_ne
      obtain ⟨x, hx, hxp⟩ := List.countP_pos.mp (Nat.pos_of_ne_zero hnews_ne)
      simp only [decide_eq_true_eq] at hxp
      exact List.mem_map.mpr
        ⟨x, ((getUnmatched_mem P pairs Side.present x).mp hx).1, hxp⟩

lemma processType2_count_zero (t : String) (B P : List IdDet) (cs : List Change)
    (i : ℕ) (hok : processType2 t B P = .ok cs) (hB : ∀ x ∈ B, x.1 ≠ i) :
    cs.countP (mentions i) = 0 := by
  obtain ⟨pairs, hp, hf⟩ := processType2_mem t B P cs hok
  rw [processFixed_count t i _ cs hf, List.countP_eq_zero]
  intro x hx
  simp only [decide_eq_true_eq]
  exact hB x ((getUnmatched_mem B pairs Side.base x).mp hx).1

lemma processType2_count_one (t : String) (B P : List IdDet) (cs : List Change)
    (i : ℕ) (hok : processType2 t B P = .ok cs)
    (hBnd : (B.map Prod.fst).Nodup) :
    cs.countP (mentions i) ≤ 1 ∧
    (∀ pairs, matchDetections B P (3/10) = .ok pairs →
      i ∈ pairs.map (fun pr : IdDet × IdDet => pr.1.1) →
      cs.countP (mentions i) = 0) := by
  obtain ⟨pairs0, hp0, hf⟩ := processType2_mem t B P cs hok
  constructor
  · rw [processFixed_count t i _ cs hf]
    exact le_trans (getUnmatched_countP_le B pairs0 Side.base _)
      (countP_id_le_one i B hBnd)
  · intro pairs hp hi
    rw [hp0] at hp
    obtain rfl : pairs0 = pairs := Except.ok.inj hp
    rw [processFixed_count t i _ cs hf]
    exact getUnmatched_matched_zero B pairs0 i Side.base hi

lemma pass1_count_zero (thr : ℚ) (baseG : List (String × List IdDet)) (i : ℕ) :
    ∀ (entries : List (String × List IdDet)) (cs1 : List Change),
      pass1 thr baseG entries = .ok cs1 →
      (∀ e ∈ entries, ∀ x ∈ lookupGroup baseG e.1, x.1 ≠ i) →
      (∀ e ∈ entries, ∀ x ∈ e.2, x.1 ≠ i) →
      cs1.countP (mentions i) = 0 := by
  intro entries
  induction entries with
  | nil =>
    intro cs1 hok _ _
    simp only [pass1] at hok
    cases hok
    simp
  | cons e rest ih =>
    intro cs1 hok hBz hPz
    obtain ⟨t, P⟩ := e
    simp only [pass1] at hok
    obtain ⟨cs, h1, hok⟩ := exceptBind_ok hok
    obtain ⟨csr, h2, hok⟩ := exceptBind_ok hok
    simp only [pure, Except.pure, Except.ok.injEq] at hok
    subst hok
    rw [List.countP_append]
    have hz1 := processType1_count_zero thr t _ P cs i h1
      (hBz (t, P) (List.mem_cons_self _ _)) (hPz (t, P) (List.mem_cons_self _ _))
    have hz2 := ih csr h2 (fun e he => hBz e (List.mem_cons_of_mem _ he))
      (fun e he => hPz e (List.mem_cons_of_mem _ he))
    omega

lemma pass2_count_zero (presG : List (String × List IdDet)) (i : ℕ) :
    ∀ (entries : List (String × List IdDet)) (cs2 : List Change),
      pass2 presG entries = .ok cs2 →
      (∀ e ∈ entries, ∀ x ∈ e.2, x.1 ≠ i) →
      cs2.countP (mentions i) = 0 := by
  intro entries
  induction entries with
  | nil =>
    intro cs2 hok _
    simp only [pass2] at hok
    cases hok
    simp
  | cons e rest ih =>
    intro cs2 hok hBz
    obtain ⟨t, B⟩ := e
    simp only [pass2] at hok
    obtain ⟨cs, h1, hok⟩ := exceptBind_ok hok
    obtain ⟨csr, h2, hok⟩ := exceptBind_ok hok
    simp only [pure, Except.pure, Except.ok.injEq] at hok
    subst hok
    rw [List.countP_append]
    have hz1 := processType2_count_zero t B _ cs i h1
      (hBz (t, B) (List.mem_cons_self _ _))
    have hz2 := ih csr h2 (fun e he => hBz e (List.mem_cons_of_mem _ he))
    omega

lemma pass2_entry_ok (presG : List (String × List IdDet)) :
    ∀ (entries : List (String × List IdDet)) (cs2 : List Change),
      pass2 presG entries = .ok cs2 →
      ∀ e ∈ entries, ∃ cs', processType2 e.1 e.2 (lookupGroup presG e.1) = .ok cs' := by
  intro entries
  induction entries with
  | nil =>
    intro cs2 _ e he
    cases he
  | cons e0 rest ih =>
    intro cs2 hok e he
    obtain ⟨t, B⟩ := e0
    simp only [pass2] at hok
    obtain ⟨cs, h1, hok⟩ := exceptBind_ok hok
    obtain ⟨csr, h2, hok⟩ := exceptBind_ok hok
    rcases List.mem_cons.mp he with h | h
    · subst h
      exact ⟨cs, h1⟩
    · exact ih csr h2 e h

lemma pass1_count_present (thr : ℚ) (baseG : List (String × List IdDet)) (i : ℕ) :
    ∀ (entries : List (String × List IdDet)) (cs1 : List Change),
      pass1 thr baseG entries = .ok cs1 →
      (∀ e ∈ entries, ∀ x ∈ lookupGroup baseG e.1, x.1 ≠ i) →
      (∀ e ∈ entries, (e.2.map Prod.fst).Nodup) →
      List.Pairwise (fun e1 e2 : String × List IdDet =>
        List.Disjoint (e1.2.map Prod.fst) (e2.2.map Prod.fst)) entries →
      cs1.countP (mentions i) ≤ 1 := by
  intro entries
  induction entries with
  | nil =>
    intro cs1 hok _ _ _
    simp only [pass1] at hok
    cases hok
    simp
  | cons e rest ih =>
    intro cs1 hok hBz hPnd hpw
    obtain ⟨t, P⟩ := e
    rw [List.pairwise_cons] at hpw
    simp only [pass1] at hok
    obtain ⟨cs, h1, hok⟩ := exceptBind_ok hok
    obtain ⟨csr, h2, hok⟩ := exceptBind_ok hok
    simp only [pure, Except.pure, Except.ok.injEq] at hok
    subst hok
    rw [List.countP_append]
    obtain ⟨hle1, hne1⟩ := processType1_count_one thr t _ P cs i h1
      (hPnd (t, P) (List.mem_cons_self _ _))
      (hBz (t, P) (List.mem_cons_self _ _))
    by_cases hc : cs.countP (mentions i) = 0
    · have hrest := ih csr h2 (fun e he => hBz e (List.mem_cons_of_mem _ he))
        (fun e he => hPnd e (List.mem_cons_of_mem _ he)) hpw.2
      omega
    · have hiP : i ∈ P.map Prod.fst := hne1 hc
      have hrest : csr.countP (mentions i) = 0 := by
        refine pass1_count_zero thr baseG i rest csr h2
          (fun e he => hBz e (List.mem_cons_of_mem _ he)) ?_
        intro e' he' x hx hxi
        exact hpw.1 e' he' hiP (List.mem_map.mpr ⟨x, hx, hxi⟩)
      omega

lemma pass1_count_base (thr : ℚ) (baseG presG : List (String × List IdDet))
    (i : ℕ) (t0 : String) (pairs0 : List (IdDet × IdDet))
    (hm0 : matchDetections (lookupGroup baseG t0) (lookupGroup presG t0) (3/10) =
      .ok pairs0) :
    ∀ (entries : List (String × List IdDet)) (cs1 : List Change),
      pass1 thr baseG entries = .ok cs1 →
      (∀ e ∈ entries, e.2 = lookupGroup presG e.1) →
      (∀ e ∈ entries, ∀ x ∈ e.2, x.1 ≠ i) →
      (∀ e ∈ entries, e.1 ≠ t0 → ∀ x ∈ lookupGroup baseG e.1, x.1 ≠ i) →
      (entries.map Prod.fst).Nodup →
      cs1.countP (mentions i) ≤
        pairs0.countP (fun pr : IdDet × IdDet => decide (pr.1.1 = i)) := by
  intro entries
  induction entries with
  | nil =>
    intro cs1 hok _ _ _ _
    simp only [pass1] at hok
    cases hok
    simp
  | cons e rest ih =>
    intro cs1 hok hco hPz hBz hkeys
    obtain ⟨t, P⟩ := e
    rw [List.map_cons, List.nodup_cons] at hkeys
    simp only [pass1] at hok
    obtain ⟨cs, h1, hok⟩ := exceptBind_ok hok
    obtain ⟨csr, h2, hok⟩ := exceptBind_ok hok
    simp only [pure, Except.pure, Except.ok.injEq] at hok
    subst hok
    rw [List.countP_append]
    by_cases ht : t = t0
    · subst ht
      obtain ⟨pairs, news, dets, hp, hn, hd, heq⟩ := processType1_mem thr t _ P cs h1
      subst heq
      have hPeq : P = lookupGroup presG t := hco (t, P) (List.mem_cons_self _ _)
      rw [hPeq] at hp
      rw [hm0] at hp
      obtain rfl : pairs0 = pairs := Except.ok.inj hp
      have hnews0 : news.countP (mentions i) = 0 := by
        rw [processNewIssues_count t i _ news hn, List.countP_eq_zero]
        intro x hx
        simp only [decide_eq_true_eq]
        refine hPz (t, P) (List.mem_cons_self _ _) x ?_
        exact ((getUnmatched_mem P pairs0 Side.present x).mp hx).1
      have hdet_le : dets.countP (mentions i) ≤
          pairs0.countP (fun pr : IdDet × IdDet => decide (pr.1.1 = i)) := by
        refine le_trans (processDeteriorated_count thr t i pairs0 dets hd) ?_
        refine List.countP_mono_left ?_
        intro pr hpr
        simp only [Bool.or_eq_true, decide_eq_true_eq]
        rintro (h | h)
        · exact h
        · have hpm := ((matchDetections_pairs_mem _ _ (3/10) pairs0 hm0).1 pr hpr).2
          rw [← hPeq] at hpm
          exact absurd h (hPz (t, P) (List.mem_cons_self _ _) pr.2 hpm)
      have hrest : csr.countP (mentions i) = 0 := by
        refine pass1_count_zero thr baseG i rest csr h2 ?_
          (fun e he => hPz e (List.mem_cons_of_mem _ he))
        intro e' he' x hx
        refine hBz e' (List.mem_cons_of_mem _ he') ?_ x hx
        intro he
        exact hkeys.1 (he ▸ List.mem_map.mpr ⟨e', he', rfl⟩)
      rw [List.countP_append]
      omega
    · have hz1 : cs.countP (mentions i) = 0 :=
        processType1_count_zero thr t _ P cs i h1
          (hBz (t, P) (List.mem_cons_self _ _) ht)
          (hPz (t, P) (List.mem_cons_self _ _))
      have hrest := ih csr h2 (fun e he => hco e (List.mem_cons_of_mem _ he))
        (fun e he => hPz e (List.mem_cons_of_mem _ he))
        (fun e he => hBz e (List.mem_cons_of_mem _ he)) hkeys.2
      omega

lemma pass2_count_base (presG : List (String × List IdDet)) (i : ℕ)
    (t0 : String) (B0 : List IdDet) (pairs0 : List (IdDet × IdDet))
    (hm0 : matchDetections B0 (lookupGroup presG t0) (3/10) = .ok pairs0)
    (hB0nd : (B0.map Prod.fst).Nodup) :
    ∀ (entries : List (String × List IdDet)) (cs2 : List Change),
      pass2 presG entries = .ok cs2 →
      (∀ e ∈ entries, e.1 ≠ t0 → ∀ x ∈ e.2, x.1 ≠ i) →
      (∀ e ∈ entries, e.1 = t0 → e.2 = B0) →
      (entries.map Prod.fst).Nodup →
      cs2.countP (mentions i) ≤ 1 ∧
      (i ∈ pairs0.map (fun pr : IdDet × IdDet => pr.1.1) →
        cs2.countP (mentions i) = 0) := by
  intro entries
  induction entries with
  | nil =>
    intro cs2 hok _ _ _
    simp only [pass2] at hok
    cases hok
    simp
  | cons e rest ih =>
    intro cs2 hok hoz ht0 hkeys
    obtain ⟨t, B⟩ := e
    rw [List.map_cons, List.nodup_cons] at hkeys
    simp only [pass2] at hok
    obtain ⟨cs, h1, hok⟩ := exceptBind_ok hok
    obtain ⟨csr, h2, hok⟩ := exceptBind_ok hok
    simp only [pure, Except.pure, Except.ok.injEq] at hok
    subst hok
    rw [List.countP_append]
    by_cases ht : t = t0
    · subst ht
      have hBeq : B = B0 := ht0 (t, B) (List.mem_cons_self _ _) rfl
      subst hBeq
      obtain ⟨hle1, hz1⟩ := processType2_count_one t B _ cs i h1 hB0nd
      have hrest : csr.countP (mentions i) = 0 := by
        refine pass2_count_zero presG i rest csr h2 ?_
        intro e' he' x hx
        refine hoz e' (List.mem_cons_of_mem _ he') ?_ x hx
        intro he
        exact hkeys.1 (he ▸ List.mem_map.mpr ⟨e', he', rfl⟩)
      constructor
      · omega
      · intro hi
        have := hz1 pairs0 hm0 hi
        omega
    · have hz1 : cs.countP (mentions i) = 0 :=
        processType2_count_zero t B _ cs i h1
          (hoz (t, B) (List.mem_cons_self _ _) ht)
      obtain ⟨hle2, hz2⟩ := ih csr h2
        (fun e he => hoz e (List.mem_cons_of_mem _ he))
        (fun e he => ht0 e (List.mem_cons_of_mem _ he)) hkeys.2
      constructor
      · omega
      · intro hi
        have := hz2 hi
        omega

/-- C10: when all input detections have distinct object identities, each
input detection appears in at most one ChangeRecord of the `detect_changes`
output.  The matching is recomputed in the new_issue/deteriorated pass and in
the fixed pass, and because it is deterministic the two computations agree,
so no base detection is both "deteriorated" and "fixed" and no present
detection is both "new_issue" and "deteriorated". -/
theorem C10_detection_in_at_most_one_record (thr : ℚ)
    (base present : List IdDet) (cs : List Change)
    (hok : detectChanges thr base present = .ok cs)
    (hnd : ((base ++ present).map Prod.fst).Nodup) :
    ∀ i : ℕ, cs.countP (mentions i) ≤ 1 := by
  intro i
  obtain ⟨cs1, cs2, h1, h2, heq⟩ := detectChanges_mem thr base present cs hok
  subst heq
  rw [List.countP_append]
  rw [List.map_append, List.nodup_append] at hnd
  obtain ⟨hbnd, hpnd, hdisj⟩ := hnd
  have hKb := groupByType_keys_nodup base
  have hKp := groupByType_keys_nodup present
  obtain ⟨hBbuckets, hBpair⟩ := groupByType_ids_nodup base hbnd
  obtain ⟨hPbuckets, hPpair⟩ := groupByType_ids_nodup present hpnd
  by_cases hib : i ∈ base.map Prod.fst
  · have hip : i ∉ present.map Prod.fst := fun h => hdisj hib h
    have hiJ : i ∈ ((groupByType base).map Prod.snd).flatten.map Prod.fst :=
      ((groupByType_flatten base).map Prod.fst).mem_iff.mpr hib
    obtain ⟨x0, hx0mem, hx0id⟩ := List.mem_map.mp hiJ
    obtain ⟨ds, hdsmem, hx0ds⟩ := List.mem_flatten.mp hx0mem
    obtain ⟨e0, he0, hds⟩ := List.mem_map.mp hdsmem
    obtain ⟨t0, B0⟩ := e0
    subst hds
    have hB0look : lookupGroup (groupByType base) t0 = B0 :=
      lookupGroup_eq_of_mem _ t0 B0 hKb he0
    have hB0nd : (B0.map Prod.fst).Nodup := hBbuckets (t0, B0) he0
    have hiB0 : i ∈ B0.map Prod.fst := List.mem_map.mpr ⟨x0, hx0ds, hx0id⟩
    obtain ⟨csE, hcsE⟩ :=
      pass2_entry_ok (groupByType present) (groupByType base) cs2 h2 (t0, B0) he0
    obtain ⟨pairs0, hm0, hfE⟩ := processType2_mem t0 B0 _ csE hcsE
    have honly : ∀ e ∈ groupByType base, e.1 ≠ t0 → ∀ x ∈ e.2, x.1 ≠ i := by
      intro e he hne x hx hxi
      have hdiffv : e ≠ (t0, B0) := fun hcon => hne (congrArg Prod.fst hcon)
      have hdisj2 := hBpair.forall
        (fun a b hab => List.Disjoint.symm hab) he he0 hdiffv
      exact hdisj2 (List.mem_map.mpr ⟨x, hx, hxi⟩) hiB0
    have hm0' : matchDetections (lookupGroup (groupByType base) t0)
        (lookupGroup (groupByType present) t0) (3/10) = .ok pairs0 := by
      rw [hB0look]
      exact hm0
    have hc1 := pass1_count_base thr (groupByType base) (groupByType present) i t0
      pairs0 hm0' (groupByType present) cs1 h1
      (fun e he => (lookupGroup_eq_of_mem (groupByType present) e.1 e.2 hKp
        (by rw [Prod.mk.eta]; exact he)).symm)
      (fun e he x hx hxi =>
        hip (List.mem_map.mpr ⟨x, groupByType_bucket_sub present e he x hx, hxi⟩))
      (fun e he hne x hx hxi => by
        obtain ⟨ds', hds', hxds'⟩ := lookupGroup_mem (groupByType base) e.1 x hx
        exact honly (e.1, ds') hds' hne x hxds' hxi)
      hKp
    have hc2 := pass2_count_base (groupByType present) i t0 B0 pairs0 hm0 hB0nd
      (groupByType base) cs2 h2
      (fun e he hne x hx hxi => honly e he hne x hx hxi)
      (fun e he het => by
        have h1' := lookupGroup_eq_of_mem (groupByType base) e.1 e.2 hKb
          (by rw [Prod.mk.eta]; exact he)
        rw [het] at h1'
        rw [← h1']
        exact hB0look)
      hKb
    by_cases hin : i ∈ pairs0.map (fun pr : IdDet × IdDet => pr.1.1)
    · have h20 := hc2.2 hin
      have hfst1 : pairs0.countP (fun pr : IdDet × IdDet => decide (pr.1.1 = i)) ≤ 1 :=
        countP_pairs_fst_le_one pairs0 i
          (matchDetections_fst_ids_nodup B0 _ (3/10) pairs0 hm0 hB0nd)
      omega
    · have h10 : pairs0.countP (fun pr : IdDet × IdDet => decide (pr.1.1 = i)) = 0 := by
        rw [List.countP_eq_zero]
        intro pr hpr
        simp only [decide_eq_true_eq]
        intro he
        exact hin (List.mem_map.mpr ⟨pr, hpr, he⟩)
      have h21 := hc2.1
      omega
  · by_cases hip : i ∈ present.map Prod.fst
    · have hc2 : cs2.countP (mentions i) = 0 := by
        refine pass2_count_zero (groupByType present) i (groupByType base) cs2 h2 ?_
        intro e he x hx hxi
        exact hib (List.mem_map.mpr ⟨x, groupByType_bucket_sub base e he x hx, hxi⟩)
      have hc1 : cs1.countP (mentions i) ≤ 1 := by
        refine pass1_count_present thr (groupByType base) i (groupByType present)
          cs1 h1 ?_ hPbuckets hPpair
        intro e he x hx hxi
        exact hib (List.mem_map.mpr ⟨x, lookupGroup_sub base e.1 x hx, hxi⟩)
      omega
    · have hc1 : cs1.countP (mentions i) = 0 := by
        refine pass1_count_zero thr (groupByType base) i (groupByType present)
          cs1 h1 ?_ ?_
        · intro e he x hx hxi
          exact hib (List.mem_map.mpr ⟨x, lookupGroup_sub base e.1 x hx, hxi⟩)
        · intro e he x hx hxi
          exact hip (List.mem_map.mpr ⟨x, groupByType_bucket_sub present e he x hx, hxi⟩)
      have hc2 : cs2.countP (mentions i) = 0 := by
        refine pass2_count_zero (groupByType present) i (groupByType base) cs2 h2 ?_
        intro e he x hx hxi
        exact hib (List.mem_map.mpr ⟨x, groupByType_bucket_sub base e he x hx, hxi⟩)
      omega

/-- Witness for C10 at a concrete run producing one record. -/
theorem C10_detection_in_at_most_one_record_witness :
    ([newIssueRecordP].countP (mentions 1)) ≤ 1 :=
  C10_detection_in_at_most_one_record (3/10) [] [(1, dtP)] [newIssueRecordP]
    detectChanges_new_issue (by simp) 1

end NRSH
